import Mathlib

/-!
Verification of the multi-agent orchestration pipeline (`multi_agent_openai.py`)
and the standalone RAG query client (`rag_client.py`).

The Python sources are shallowly embedded as executable Lean definitions:

* network interactions (OpenAI chat completions, Jina search, Open WebUI
  retrieval endpoints) are abstracted as oracle parameters, so each claim is
  settled for every possible behaviour of the external services;
* Python strings are Lean `String`s, with the Python built-in operations
  (`in`, `lower`, `upper`, `strip`, `replace`, `" ".flatten`) re-implemented on
  `List Char` so that they evaluate inside the kernel;
* Python floats (temperatures, distances, relevance scores) are modelled as
  rationals `Rat`; they are only carried around and compared, never subjected
  to float-specific rounding in the claims under study;
* Python exceptions are modelled with `Except`/`Option`; a function that the
  source guarantees not to raise is embedded as a total function.
-/

/-! ## Python string primitives (re-implemented so the kernel can evaluate) -/

/-- Python `lower()` restricted to its ASCII behaviour (all strings compared in
the source are ASCII). -/
def pyLower (s : String) : String :=
  String.mk (s.data.map Char.toLower)

/-- Python `upper()` restricted to its ASCII behaviour. -/
def pyUpper (s : String) : String :=
  String.mk (s.data.map Char.toUpper)

/-- Does the second list occur as a leading segment of the first argument list?
Helper for the substring test. -/
def startsWithChars : List Char → List Char → Bool
  | [], _ => true
  | _ :: _, [] => false
  | p :: ps, c :: cs => p == c && startsWithChars ps cs

/-- Does `sub` occur as a contiguous segment of the second list? -/
def containsChars (sub : List Char) : List Char → Bool
  | [] => sub.isEmpty
  | c :: cs => startsWithChars sub (c :: cs) || containsChars sub cs

/-- Python `sub in s` (substring containment). -/
def pyContains (s sub : String) : Bool :=
  containsChars sub.data s.data

/-- Drop leading whitespace characters. Helper for Python `strip()`. -/
def dropLeadingWs : List Char → List Char
  | [] => []
  | c :: cs => if c.isWhitespace then dropLeadingWs cs else c :: cs

/-- Python `strip()`: remove whitespace from both ends. -/
def pyStrip (s : String) : String :=
  String.mk ((dropLeadingWs (dropLeadingWs s.data).reverse).reverse)

/-- Python `str.replace` on char lists: left-to-right replacement of every
non-overlapping occurrence of `old` by `new`.  The `fuel` argument makes the
recursion structural (each step consumes at least one character, so any fuel
of at least the list length is enough and the `fuel = 0` branch is
unreachable from `pyReplace`).  All call sites in the source use a non-empty
`old`; the `old = []` case here keeps the text unchanged. -/
def replaceChars (old new : List Char) : Nat → List Char → List Char
  | _, [] => []
  | 0, l => l
  | fuel + 1, c :: cs =>
    if startsWithChars old (c :: cs) then
      match old with
      | [] => c :: replaceChars old new fuel cs
      | _ :: ps => new ++ replaceChars old new fuel (cs.drop ps.length)
    else c :: replaceChars old new fuel cs

/-- Python `s.replace(old, new)`. -/
def pyReplace (s old new : String) : String :=
  String.mk (replaceChars old.data new.data s.data.length s.data)

/-! ## Model Invocation Gateway (`multi_agent_openai.py`, lines 131-191)

`call_model` performs the actual network call.  The network is abstracted as
an oracle `net : model → messages → temperature → NetResult`, distinguishing
a successful response, an `asyncio.TimeoutError`, and any other exception
(with its message).  Since the source returns the response text in every
branch (and never re-raises), the embedding is a total function returning the
text together with the list of network attempts actually made (model,
messages, temperature per attempt). -/

/-- Outcome of one attempted chat-completion network call. -/
inductive NetResult where
  | ok (text : String)
  | timeout
  | err (msg : String)
deriving DecidableEq, Repr

/-- One network attempt: which model was called, with which messages and
temperature.  Messages are (role, content) pairs. -/
structure ModelCall where
  model : String
  messages : List (String × String)
  temperature : Rat
deriving DecidableEq, Repr

/-- The hard-coded fallback model of `call_model` (line 161). -/
def fallback_model : String := "gpt-3.5-turbo"

/-- Embedding of `call_model` (lines 131-175).  `clientInit` models the lazy
OpenAI-client initialization (lines 135-141): `.error e` is the branch where
constructing the client raises.  A fallback-attempt timeout is caught by the
generic `except Exception` handler of the source; `str` of an argumentless
`TimeoutError` is the empty string, hence the empty trailing message. -/
def call_model (timeoutSecs : Nat) (clientInit : Except String Unit)
    (net : String → List (String × String) → Rat → NetResult)
    (model : String) (messages : List (String × String)) (temperature : Rat) :
    String × List ModelCall :=
  match clientInit with
  | .error e => (s!"Error initializing OpenAI client: {e}", [])
  | .ok _ =>
    match net model messages temperature with
    | .ok text => (text, [⟨model, messages, temperature⟩])
    | .timeout =>
      (s!"Error: Request to model {model} timed out after {timeoutSecs} seconds.",
       [⟨model, messages, temperature⟩])
    | .err e =>
      match net fallback_model messages temperature with
      | .ok text =>
        (text, [⟨model, messages, temperature⟩, ⟨fallback_model, messages, temperature⟩])
      | .timeout =>
        (s!"Error calling model {model}: {e}\nFallback also failed: ",
         [⟨model, messages, temperature⟩, ⟨fallback_model, messages, temperature⟩])
      | .err fe =>
        (s!"Error calling model {model}: {e}\nFallback also failed: {fe}",
         [⟨model, messages, temperature⟩, ⟨fallback_model, messages, temperature⟩])

/-- Mutable state of the caching gateway: the `self.cache` dict (modelled as
an association list, most recent entry first) and a counter of how many times
the underlying `call_model` has been entered. -/
structure Gateway where
  cache : List (String × String)
  netCalls : Nat
deriving Repr

/-- The cache key of `call_model_with_cache` (lines 184-186).  `msgHash`
abstracts Python's `hash(json.dumps(messages, sort_keys=True))`; being a
function, it is deterministic on identical message lists, which is all the
source relies on. -/
def cache_key (msgHash : List (String × String) → Int) (model : String)
    (messages : List (String × String)) (temperature : Rat) : String :=
  s!"{model}_{msgHash messages}_{temperature}"

/-- Embedding of `call_model_with_cache` (lines 177-191).  `net` abstracts the
inner `await self.call_model(...)` (indexed by the running call counter, so
successive network calls may answer differently). -/
def call_model_with_cache (enableCaching : Bool)
    (msgHash : List (String × String) → Int) (net : Nat → String)
    (gw : Gateway) (model : String) (messages : List (String × String))
    (temperature : Rat) : String × Gateway :=
  if !enableCaching then
    (net gw.netCalls, { gw with netCalls := gw.netCalls + 1 })
  else
    let key := cache_key msgHash model messages temperature
    match gw.cache.lookup key with
    | some v => (v, gw)
    | none =>
      let response := net gw.netCalls
      (response, { cache := (key, response) :: gw.cache, netCalls := gw.netCalls + 1 })

/-! ## Agent Planner (`multi_agent_openai.py`, lines 383-479)

`define_agents` asks the thinking model for a JSON team description.  The
model call plus the JSON extraction (regex search for a `[ { ... } ]`
substring followed by `json.loads`) is abstracted as `parsed : Option (List
RawAgent)`: `none` covers every failure path that reaches the outer `except`
(no JSON-array match, a `json.loads` error, or a non-list-of-dicts payload),
`some team` a successful parse.  A parsed dict may lack any field, and its
`order` may be a non-integer, which the source coerces to 0; `order = none`
models a missing or non-integer order. -/

/-- A JSON-parsed agent dictionary as consumed by `define_agents`. -/
structure RawAgent where
  name : Option String
  role : Option String
  specialty : Option String
  tasks : Option (List String)
  order : Option Int
deriving DecidableEq, Repr

/-- The default Coordinator injected at the front when the parsed team lacks
one (lines 426-438); textually identical to the fallback team's Coordinator
(lines 452-458). -/
def default_coordinator : RawAgent :=
  { name := some "Coordinator",
    role := some "Manages workflow and synthesizes information",
    specialty := some "Coordination and decision making",
    tasks := some ["Coordinate other agents", "Synthesize final answer"],
    order := some 0 }

/-- The fixed fallback team returned when agent extraction fails entirely
(lines 450-479). -/
def fallback_agents : List RawAgent :=
  [default_coordinator,
   { name := some "Analyst", role := some "Analyzes the provided information",
     specialty := some "Data analysis and interpretation",
     tasks := some ["Analyze provided context", "Formulate insights"],
     order := some 1 },
   { name := some "Implementer", role := some "Translates findings into actionable steps",
     specialty := some "Practical implementation",
     tasks := some ["Convert ideas to actions", "Provide concrete solutions"],
     order := some 2 }]

/-- Embedding of `define_agents` (lines 383-479): on a successful parse,
inject `default_coordinator` at the front when no agent is named
"Coordinator", then coerce every missing/non-integer `order` to 0; on any
failure, return the fixed fallback team. -/
def define_agents (parsed : Option (List RawAgent)) : List RawAgent :=
  match parsed with
  | none => fallback_agents
  | some agents =>
    let agents :=
      if agents.any (fun a => a.name == some "Coordinator") then agents
      else default_coordinator :: agents
    agents.map (fun a =>
      match a.order with
      | some _ => a
      | none => { a with order := some 0 })

/-! ## Agent Executor model-tier selection (`multi_agent_openai.py`, lines 481-509) -/

/-- An agent definition as consumed by the phase loop and `run_agent`.  The
orchestrator accesses `name` and `order` unconditionally, so after
`define_agents` post-processing they are total here. -/
structure Agent where
  name : String
  role : String
  specialty : String
  tasks : List String
  order : Int
deriving DecidableEq, Repr

/-- The three configurable model tiers of `Pipe.Valves` used by
`run_agent`'s selection policy. -/
structure Valves where
  COORDINATOR_MODEL : String
  THINKING_MODEL : String
  EXECUTION_MODEL : String
deriving DecidableEq, Repr

/-- The `Valves` defaults (lines 27-38). -/
def defaultValves : Valves :=
  { COORDINATOR_MODEL := "gpt-4o-mini",
    THINKING_MODEL := "o1-mini",
    EXECUTION_MODEL := "gpt-4o" }

/-- Specialty keywords selecting the thinking model (lines 496-504). -/
def thinking_specialty_keywords : List String :=
  ["thinking", "analysis", "reasoning", "strategic", "synthesis", "analyst"]

/-- Task keywords selecting the thinking model (line 507). -/
def thinking_task_keywords : List String :=
  ["analyze", "evaluate", "interpret", "synthesize"]

/-- Embedding of the model-tier selection of `run_agent` (lines 485-509):
start from the execution model, switch to the coordinator model when the
lowercased name equals "coordinator" or the lowercased role contains
"coordinate", otherwise to the thinking model when a specialty or combined
task keyword matches. -/
def run_agent_model (v : Valves) (agent : Agent) : String :=
  let agent_name_lower := pyLower agent.name
  let agent_role_lower := pyLower agent.role
  let agent_specialty_lower := pyLower agent.specialty
  let agent_tasks_combined_lower := pyLower (String.intercalate " " agent.tasks)
  if agent_name_lower == "coordinator" || pyContains agent_role_lower "coordinate" then
    v.COORDINATOR_MODEL
  else if thinking_specialty_keywords.any (pyContains agent_specialty_lower) ||
      thinking_task_keywords.any (pyContains agent_tasks_combined_lower) then
    v.THINKING_MODEL
  else
    v.EXECUTION_MODEL

/-- Claim C9 as stated: an agent whose name or role contains the stem
"coordinat" is assigned the coordinator-tier model. -/
def claim_c9_coordinator_rule (v : Valves) (agent : Agent) : Prop :=
  (pyContains (pyLower agent.name) "coordinat" ||
   pyContains (pyLower agent.role) "coordinat") = true →
  run_agent_model v agent = v.COORDINATOR_MODEL

/-! ## Research-query planner (`multi_agent_openai.py`, lines 305-350)

`_get_research_queries` parses the planning model's response.  The response
text is a parameter; the result of Python's `json.loads(response)` is passed
alongside as `parsed` (`.decodeError` for a `json.JSONDecodeError`, `.ok j`
for a successfully decoded JSON value `j`), since re-implementing the
library parser is not the subject of the claim. -/

/-- A decoded JSON value, as far as `_get_research_queries` inspects one. -/
inductive Json where
  | str (s : String)
  | num (q : Rat)
  | bool (b : Bool)
  | null
  | arr (elems : List Json)
  | obj (fields : List (String × Json))

/-- Result of `json.loads` on the response text. -/
inductive JsonParse where
  | decodeError
  | ok (j : Json)

/-- Check `isinstance(queries, list) and all(isinstance(q, str) for q in
queries)` (lines 335-337), returning the strings when it holds. -/
def jsonStringList : List Json → Option (List String)
  | [] => some []
  | .str s :: rest => (jsonStringList rest).map (s :: ·)
  | _ :: _ => none

/-- String-list view of a decoded JSON value (lines 335-339): `none` makes the
source raise `ValueError`, which its generic `except` turns into `[]`. -/
def asStringList : Json → Option (List String)
  | .arr elems => jsonStringList elems
  | _ => none

/-- The regex fallback `re.findall(r'"([^\x22]*)"', response)` (line 344):
scan left to right, collecting the maximal quote-free segment after each
opening double quote; an unterminated trailing quote yields no match.  The
accumulator is `some acc` while inside a quoted segment. -/
def findQuotedAux : List Char → Option (List Char) → List String
  | [], _ => []
  | '"' :: rest, none => findQuotedAux rest (some [])
  | '"' :: rest, some acc => String.mk acc.reverse :: findQuotedAux rest none
  | _ :: rest, none => findQuotedAux rest none
  | c :: rest, some acc => findQuotedAux rest (some (c :: acc))

/-- All double-quoted substrings of `s`, in order. -/
def findQuoted (s : String) : List String :=
  findQuotedAux s.data none

/-- Embedding of `_get_research_queries` (lines 331-350), from the model
response onward: a trimmed-uppercased "NONE" yields `[]`; a decoded JSON
list of strings is returned as is; a JSON decode error falls back to the
quoted-substring extraction; any other decoded JSON value yields `[]`. -/
def get_research_queries (response : String) (parsed : JsonParse) : List String :=
  if pyUpper (pyStrip response) = "NONE" then []
  else
    match parsed with
    | .ok j =>
      match asStringList j with
      | some qs => qs
      | none => []
    | .decodeError =>
      let found := findQuoted response
      if found.isEmpty then [] else found

/-! ## RAG query client (`rag_client.py`)

The HTTP transport is abstracted: the knowledge-base listing
(`_get_user_collections`) becomes `listing : Except String (List (String ×
String))` — `.error` for a transport fault raised by the listing call,
`.ok` for the parsed (id, name) pairs — and each per-collection retrieval
query (`_query_single_collection`) becomes an oracle `queryColl : id → name
→ Except String (List DocumentResult)`, whose `.error` covers every
exception a collection query can surface (all of which
`asyncio.gather(..., return_exceptions=True)` turns into skipped values). -/

/-- Python truthiness-based `a or b` on optional strings: `None` and the
empty string are falsy. -/
def pyOrStr : Option String → Option String → Option String
  | some s, b => if s.isEmpty then b else some s
  | none, b => b

/-- `DocumentResult` (rag_client.py lines 73-82).  `metadata` is restricted to
the string-valued entries the client reads; `citation_id` is `none` until
assigned. -/
structure DocumentResult where
  text : String
  metadata : List (String × String)
  distance : Rat
  relevance_score : Rat
  source : Option String
  collection_id : String
  collection_name : String
  citation_id : Option Nat
deriving DecidableEq, Repr

/-- `RAGQueryResponse` (lines 85-92).  `execution_time_ms` is fixed at 0: the
wall-clock measurement has no counterpart in a pure embedding and no claim
refers to it. -/
structure RAGQueryResponse where
  query : String
  total_results : Nat
  results : List DocumentResult
  collections_searched : List (String × String)
  execution_time_ms : Rat
  context_string : Option String

/-- Result-row parsing of `_query_single_collection` (lines 324-346): zip the
backend's documents/metadatas/distances, convert cosine distance `d` to the
relevance score `max(0, 1 - d/2)`, and derive `source` from the metadata
chain `source or file_name or name`. -/
def parse_query_rows (collection_id collection_name : String) :
    List (String × List (String × String) × Rat) → List DocumentResult
  | [] => []
  | (doc, metadata, distance) :: rest =>
    { text := doc, metadata := metadata, distance := distance,
      relevance_score := max 0 (1 - distance / 2),
      source := pyOrStr (metadata.lookup "source")
        (pyOrStr (metadata.lookup "file_name") (metadata.lookup "name")),
      collection_id := collection_id, collection_name := collection_name,
      citation_id := none } :: parse_query_rows collection_id collection_name rest

/-- The citation-key of one result (line 223): `result.source or
result.metadata.get("source") or "N/A"` under Python truthiness. -/
def citation_source_id (r : DocumentResult) : String :=
  match pyOrStr r.source (pyOrStr (r.metadata.lookup "source") (some "N/A")) with
  | some s => s
  | none => "N/A"

/-- The citation-assignment loop of `query_rag_for_user` (lines 220-226): walk
the filtered results, keep `citation_idx_map` (an insertion-ordered dict from
source key to citation id), give an unseen source the id `len(map) + 1`, and
stamp each result with its source's id. -/
def assignCitAux (m : List (String × Nat)) : List DocumentResult → List DocumentResult
  | [] => []
  | r :: rs =>
    let sid := citation_source_id r
    let m' := if (m.lookup sid).isSome then m else m ++ [(sid, m.length + 1)]
    { r with citation_id := m'.lookup sid } :: assignCitAux m' rs

/-- Citation assignment over filtered results, starting from the empty map. -/
def assign_citations (results : List DocumentResult) : List DocumentResult :=
  assignCitAux [] results

/-- Index of the first occurrence of `s` (length of the list when absent).
Specification-side counterpart of the insertion-ordered dict. -/
def idxOfStr (s : String) : List String → Nat
  | [] => 0
  | x :: xs => if x = s then 0 else idxOfStr s xs + 1

/-- Specification of first-seen citation indexing with stable reuse: given the
sources already seen (in first-seen order), a repeated source reuses the
position of its first occurrence and a new source receives the next free
index. -/
def citationSpecIds (seen : List String) : List String → List Nat
  | [] => []
  | s :: ss =>
    if s ∈ seen then (idxOfStr s seen + 1) :: citationSpecIds seen ss
    else (seen.length + 1) :: citationSpecIds (seen ++ [s]) ss

/-- Python `f"{citation_id}"` on the optional citation id (`None` prints as
"None"). -/
def citation_id_str : Option Nat → String
  | some n => toString n
  | none => "None"

/-- Embedding of `_format_context_for_llm` (lines 352-382): one
`<source id=".." name="..">text</source>` tag per result (the `name`
attribute only for a truthy source), joined by newlines. -/
def format_context_for_llm (results : List DocumentResult) : String :=
  String.intercalate "\n"
    (results.map (fun r =>
      let source_tag := s!"<source id=\"{citation_id_str r.citation_id}\""
      let source_tag :=
        match r.source with
        | some s => if s.isEmpty then source_tag else source_tag ++ s!" name=\"{s}\""
        | none => source_tag
      source_tag ++ s!">{r.text}</source>"))

/-- `DEFAULT_RAG_TEMPLATE` (rag_client.py lines 41-66), verbatim. -/
def DEFAULT_RAG_TEMPLATE : String := "### Task:
Respond to the user query using the provided context, incorporating inline citations in the format [id] **only when the <source> tag includes an explicit id attribute** (e.g., <source id=\"1\">).

### Guidelines:
- If you don't know the answer, clearly state that.
- If uncertain, ask the user for clarification.
- Respond in the same language as the user's query.
- If the context is unreadable or of poor quality, inform the user and provide the best possible answer.
- If the answer isn't present in the context but you possess the knowledge, explain this to the user and provide the answer using your own understanding.
- **Only include inline citations using [id] (e.g., [1], [2]) when the <source> tag includes an id attribute.**
- Do not cite if the <source> tag does not contain an id attribute.
- Do not use XML tags in your response.
- Ensure citations are concise and directly related to the information provided.

### Example of Citation:
If the user asks about a specific topic and the information is found in a source with a provided id attribute, the response should include the citation like in the following example:
* \"According to the study, the proposed method increases efficiency by 20% [1].\"

### Output:
Provide a clear and direct response to the user's query, including inline citations in the format [id] only when the <source> tag with id attribute is present in the context.

<context>
\x7b\x7bCONTEXT\x7d\x7d
</context>

Query: \x7b\x7bQUERY\x7d\x7d"

/-- Embedding of `format_sources_for_llm` (lines 385-419): take the response's
context string (regenerating it from the results when absent), then
substitute it and the query into the template's `[context]`,
`\x7b\x7bCONTEXT\x7d\x7d`, `[query]`, and `\x7b\x7bQUERY\x7d\x7d`
placeholders. -/
def format_sources_for_llm (response : RAGQueryResponse)
    (rag_template : Option String) : String :=
  let tmpl :=
    match rag_template with
    | some t => t
    | none => DEFAULT_RAG_TEMPLATE
  let context :=
    match response.context_string with
    | some c => c
    | none => if response.results.isEmpty then "" else format_context_for_llm response.results
  let result := pyReplace tmpl "[context]" context
  let result := pyReplace result "\x7b\x7bCONTEXT\x7d\x7d" context
  let result := pyReplace result "[query]" response.query
  let result := pyReplace result "\x7b\x7bQUERY\x7d\x7d" response.query
  result

/-- The raising failure modes of `query_rag_for_user`: the `ValueError` for
zero accessible collections (line 180) and a transport error propagating out
of the knowledge-base listing call. -/
inductive RagError where
  | valueError (msg : String)
  | httpError (msg : String)
deriving DecidableEq, Repr

/-- Merge step of `query_rag_for_user` (lines 203-209): extend by each
collection's rows, skipping collections whose query raised. -/
def merge_collection_results
    (rs : List (Except String (List DocumentResult))) : List DocumentResult :=
  rs.foldl
    (fun acc r =>
      match r with
      | .error _ => acc
      | .ok rows => acc ++ rows)
    []

/-- Stable insertion keeping higher relevance scores first: the new element
goes after every already-placed element of equal or higher score. -/
def insertDescByScore (r : DocumentResult) :
    List DocumentResult → List DocumentResult
  | [] => [r]
  | x :: xs =>
    if x.relevance_score < r.relevance_score then r :: x :: xs
    else x :: insertDescByScore r xs

/-- Python's stable `list.sort(key=relevance_score, reverse=True)` (line 212),
realised as a stable insertion sort (extensionally equal on every input). -/
def sortByScoreDesc (l : List DocumentResult) : List DocumentResult :=
  l.foldl (fun acc r => insertDescByScore r acc) []

/-- Embedding of `query_rag_for_user` (lines 99-245): list the accessible
collections (transport faults propagate), raise `ValueError` when there are
none, query every collection (failures skipped), merge, sort by descending
relevance, apply the threshold and `top_k` cut, assign citation ids, and
optionally format the context string. -/
def query_rag_for_user (user_id : String) (top_k : Nat)
    (relevance_threshold : Rat) (format_for_llm : Bool)
    (listing : Except String (List (String × String)))
    (queryColl : String → String → Except String (List DocumentResult))
    (query : String) : Except RagError RAGQueryResponse :=
  match listing with
  | .error e => .error (.httpError e)
  | .ok collections =>
    if collections.isEmpty then
      .error (.valueError s!"No knowledge bases accessible for user {user_id}")
    else
      let collection_results := collections.map (fun c => queryColl c.1 c.2)
      let all_results := merge_collection_results collection_results
      let sorted_results := sortByScoreDesc all_results
      let filtered_results :=
        (sorted_results.filter (fun r => relevance_threshold ≤ r.relevance_score)).take top_k
      let final_results := assign_citations filtered_results
      let context_string :=
        if format_for_llm && !final_results.isEmpty then
          some (format_context_for_llm final_results)
        else none
      .ok { query := query, total_results := final_results.length,
            results := final_results, collections_searched := collections,
            execution_time_ms := 0, context_string := context_string }

/-- A concrete RAG result with the given text, source and score, as the
merge/rank step of `query_rag_for_user` would hold it before citation
assignment. -/
def ragDoc (txt src : String) (score : Rat) : DocumentResult :=
  { text := txt, metadata := [], distance := 0, relevance_score := score,
    source := some src, collection_id := "c1", collection_name := "kb",
    citation_id := none }

/-- The response of claim C8: context string already formatted as the literal
source tag, query "Q". -/
def c8_response : RAGQueryResponse :=
  { query := "Q", total_results := 1,
    results := [], collections_searched := [], execution_time_ms := 0,
    context_string := some "<source id=\"1\" name=\"doc.pdf\">hello</source>" }

/-! ## Orchestrator phase loop (`multi_agent_openai.py`, lines 634-768)

The `pipe` coroutine sorts the planned agents by `order`, groups them into
phases, and runs the phases in ascending order; inside a phase it creates one
task per agent and then awaits them, and on each successful completion runs
the propagation loop (lines 754-765) that appends the completed output to
later-phase agents' contexts (relevance-gated) and to the Coordinator's
context (unconditionally).

Embedding choices:
* each agent's execution is the oracle `outcome : Agent → Except String
  String` (`.ok` the produced text, `.error` the exception caught by the
  per-agent handler at lines 766-768);
* the relevance model call inside `is_relevant` is the oracle `relResp :
  information → future agent → String` (its response text); the filter's
  decision is the source's `"YES" in response.upper()`;
* a Python context string accumulated by `+=` is modelled as the list of its
  appended chunks, in append order — `Chunk.init` is the initial context of
  lines 713-719 (task plus optional research block), `Chunk.output from r`
  the appended block `"\n\nOutput from {from}:\n{r}\n"` of lines 759-765;
* `asyncio.create_task` / sequential `await` of a phase is modelled by a
  trace of events: every phase agent's `start` event is emitted at task
  creation (before any await of that phase), and a `term` event when its
  await returns (successfully or not).  Cross-phase ordering facts proved on
  this trace hold for every within-phase completion order, because the
  theorems quantify over arbitrary agent lists and oracles. -/

/-- One chunk of an agent's accumulated context. -/
inductive Chunk where
  | init (task research : String)
  | output (agent_name result : String)
deriving DecidableEq, Repr

/-- Scheduling events of one orchestrator run: `start a` when agent `a`'s
task is created, `term a ok` when its await returns (`ok = false` when the
per-agent exception handler recorded a failure). -/
inductive AgentEvent where
  | start (a : Agent)
  | term (a : Agent) (ok : Bool)
deriving DecidableEq, Repr

/-- Orchestrator state threaded through the phase loop: `agent_contexts`,
`all_completed_agent_results`, `progress_messages`, and the scheduling
trace. -/
structure PipeState where
  contexts : List (String × List Chunk)
  all_completed_agent_results : List (String × String)
  progress_messages : List String
  trace : List AgentEvent
deriving Repr

/-- Embedding of `is_relevant` (lines 610-632) applied to the model's reply:
`"YES" in response.upper()`. -/
def is_relevant (response : String) : Bool :=
  pyContains (pyUpper response) "YES"

/-- `agent_contexts[name] += chunk`: append a chunk to the context stored
under `name`. -/
def ctxAppend (contexts : List (String × List Chunk)) (name : String)
    (ch : Chunk) : List (String × List Chunk) :=
  contexts.map (fun p => if p.1 = name then (p.1, p.2 ++ [ch]) else p)

/-- One iteration of the propagation loop (lines 755-765) for the candidate
`future_agent`: append the completed output to its context if it sits in a
strictly later phase and the relevance filter accepts, or unconditionally if
it is named "Coordinator" (and is not the completing agent itself). -/
def propagate_step (rel : String → Agent → Bool) (current_order : Int)
    (agent_name result : String) (contexts : List (String × List Chunk))
    (future_agent : Agent) : List (String × List Chunk) :=
  if future_agent.name ≠ agent_name then
    if future_agent.order > current_order then
      if rel result future_agent then
        ctxAppend contexts future_agent.name (.output agent_name result)
      else contexts
    else if future_agent.name = "Coordinator" then
      ctxAppend contexts future_agent.name (.output agent_name result)
    else contexts
  else contexts

/-- The propagation loop (lines 754-765), run when `agent_name` completed
with `result` in the phase `current_order`: one `propagate_step` per agent
of the team. -/
def propagate (rel : String → Agent → Bool) (agents : List Agent)
    (current_order : Int) (agent_name result : String)
    (contexts : List (String × List Chunk)) : List (String × List Chunk) :=
  agents.foldl (propagate_step rel current_order agent_name result) contexts

/-- Await one phase agent (lines 745-768): on success, record the result,
log completion, and run the propagation loop; on failure, log the failure.
Either way the agent reaches a terminal trace event. -/
def awaitAgent (relResp : String → Agent → String)
    (outcome : Agent → Except String String) (agents : List Agent)
    (current_order : Int) (st : PipeState) (agent : Agent) : PipeState :=
  match outcome agent with
  | .ok result =>
    { st with
      all_completed_agent_results :=
        st.all_completed_agent_results ++ [(agent.name, result)],
      progress_messages := st.progress_messages ++ [s!"  {agent.name} completed.\n"],
      contexts :=
        propagate (fun info fa => is_relevant (relResp info fa)) agents
          current_order agent.name result st.contexts,
      trace := st.trace ++ [.term agent true] }
  | .error e =>
    { st with
      progress_messages := st.progress_messages ++ [s!"  {agent.name} failed: {e}\n"],
      trace := st.trace ++ [.term agent false] }

/-- The agents of the phase `o`.  The source groups the order-sorted agent
list into `agents_by_order`; since Python's sort is stable, the group of `o`
is exactly the original list filtered to `order = o`, in original order. -/
def phase_agents (agents : List Agent) (o : Int) : List Agent :=
  agents.filter (fun a => a.order == o)

/-- Insert into an ascending list of phase numbers. -/
def insertSortedInt (o : Int) : List Int → List Int
  | [] => [o]
  | x :: xs => if o ≤ x then o :: x :: xs else x :: insertSortedInt o xs

/-- First-occurrence deduplication of the order values. -/
def dedupOrders (orders : List Int) : List Int :=
  orders.foldl (fun acc o => if o ∈ acc then acc else acc ++ [o]) []

/-- `sorted_orders = sorted(agents_by_order.keys())` (line 669): the distinct
`order` values in ascending order. -/
def sorted_orders (agents : List Agent) : List Int :=
  (dedupOrders (agents.map (·.order))).foldr insertSortedInt []

/-- The phase header appended to the progress log (lines 726-729). -/
def phase_header (current_order : Int) (phase : List Agent) : String :=
  let phase_names := String.intercalate ", " (phase.map (fun a => a.name))
  s!"\nPhase {current_order}: {phase_names}\n"

/-- Run one phase (lines 724-768): log the phase header, create every phase
task (each agent starts), then await them in sequence. -/
def runPhase (relResp : String → Agent → String)
    (outcome : Agent → Except String String) (agents : List Agent)
    (phase : List Agent) (current_order : Int) (st : PipeState) : PipeState :=
  let st :=
    { st with
      progress_messages := st.progress_messages ++ [phase_header current_order phase],
      trace := st.trace ++ phase.map .start }
  phase.foldl (awaitAgent relResp outcome agents current_order) st

/-- Initial orchestrator state (lines 713-721): one context per agent holding
the task (and the research block, possibly empty), no results, no events. -/
def init_state (task research : String) (agents : List Agent) : PipeState :=
  { contexts := agents.map (fun a => (a.name, [Chunk.init task research])),
    all_completed_agent_results := [],
    progress_messages := [],
    trace := [] }

/-- The phase loop of `pipe` (lines 723-768): run the phases in ascending
order of their `order` values. -/
def run_phases (relResp : String → Agent → String)
    (outcome : Agent → Except String String) (task research : String)
    (agents : List Agent) : PipeState :=
  (sorted_orders agents).foldl
    (fun st o => runPhase relResp outcome agents (phase_agents agents o) o st)
    (init_state task research agents)

/-- The context accumulated for `name` at a given state. -/
def context_of (st : PipeState) (name : String) : List Chunk :=
  (st.contexts.lookup name).getD []

/-- Did the agent's await succeed? -/
def outcomeOk (outcome : Agent → Except String String) (a : Agent) : Bool :=
  match outcome a with
  | .ok _ => true
  | .error _ => false

/-- The trace block contributed by one phase: all starts, then a terminal
event per agent. -/
def phase_block (outcome : Agent → Except String String)
    (phase : List Agent) : List AgentEvent :=
  phase.map .start ++ phase.map (fun a => .term a (outcomeOk outcome a))

/-- The phase-0 Coordinator of the witness run. -/
def c6_coord : Agent :=
  { name := "Coordinator", role := "m", specialty := "c", tasks := [], order := 0 }

/-- The phase-1 worker of the witness run. -/
def c6_worker : Agent :=
  { name := "Worker", role := "w", specialty := "x", tasks := [], order := 1 }

/-! ## Theorems -/

/-- Claim C4: the Model Invocation Gateway never raises to its caller (the
embedding is a total function into `String`); on a timeout of the primary
call it returns a textual error message and makes no fallback attempt; on any
other primary-call failure it makes exactly one retry against the fixed
fallback model `gpt-3.5-turbo` with the same messages and the same
temperature, returning the retry's text on success and, if the retry also
fails — whether with an exception carrying a message or by timing out (the
`TimeoutError` is caught by the same generic handler, whose `str` is empty)
— a text payload embedding both failure messages, after exactly the two
attempts. -/
theorem call_model_error_policy (T : Nat)
    (net : String → List (String × String) → Rat → NetResult)
    (model : String) (messages : List (String × String)) (temp : Rat) :
    (∀ t, net model messages temp = .ok t →
      call_model T (.ok ()) net model messages temp = (t, [⟨model, messages, temp⟩])) ∧
    (net model messages temp = .timeout →
      call_model T (.ok ()) net model messages temp =
        (s!"Error: Request to model {model} timed out after {T} seconds.",
         [⟨model, messages, temp⟩])) ∧
    (∀ e t, net model messages temp = .err e → net fallback_model messages temp = .ok t →
      call_model T (.ok ()) net model messages temp =
        (t, [⟨model, messages, temp⟩, ⟨fallback_model, messages, temp⟩])) ∧
    (∀ e, net model messages temp = .err e → net fallback_model messages temp = .timeout →
      call_model T (.ok ()) net model messages temp =
        (s!"Error calling model {model}: {e}\nFallback also failed: ",
         [⟨model, messages, temp⟩, ⟨fallback_model, messages, temp⟩])) ∧
    (∀ e fe, net model messages temp = .err e → net fallback_model messages temp = .err fe →
      call_model T (.ok ()) net model messages temp =
        (s!"Error calling model {model}: {e}\nFallback also failed: {fe}",
         [⟨model, messages, temp⟩, ⟨fallback_model, messages, temp⟩])) := by
  refine ⟨fun t h => ?_, fun h => ?_, fun e t h h' => ?_, fun e h h' => ?_,
    fun e fe h h' => ?_⟩ <;> simp [call_model, h, *]

/-- Witness for C4: with a network that fails the primary call with message
"p" and the fallback call with message "f", the gateway returns the payload
embedding both messages after exactly the two expected attempts; with a
network whose fallback call instead times out, it returns the payload with
the empty fallback message, again after exactly the two attempts. -/
theorem call_model_error_policy_witness :
    call_model 60 (.ok ())
      (fun m _ _ => if m = "gpt-3.5-turbo" then .err "f" else .err "p")
      "gpt-4o" [] 1 =
      ("Error calling model gpt-4o: p\nFallback also failed: f",
       [⟨"gpt-4o", [], 1⟩, ⟨"gpt-3.5-turbo", [], 1⟩]) ∧
    call_model 60 (.ok ())
      (fun m _ _ => if m = "gpt-3.5-turbo" then .timeout else .err "p")
      "gpt-4o" [] 1 =
      ("Error calling model gpt-4o: p\nFallback also failed: ",
       [⟨"gpt-4o", [], 1⟩, ⟨"gpt-3.5-turbo", [], 1⟩]) :=
  ⟨(call_model_error_policy 60
      (fun m _ _ => if m = "gpt-3.5-turbo" then .err "f" else .err "p")
      "gpt-4o" [] 1).2.2.2.2 "p" "f" (by decide) (by decide),
   (call_model_error_policy 60
      (fun m _ _ => if m = "gpt-3.5-turbo" then .timeout else .err "p")
      "gpt-4o" [] 1).2.2.2.1 "p" (by decide) (by decide)⟩

/-- Claim C3: with caching enabled, two successive calls through the cached
gateway with identical (model, messages, temperature) return the same text
and the second call performs no network call (the underlying `call_model`,
including its fallback logic, is bypassed), for every network behaviour of
the two calls and every starting cache; with caching disabled, every call
reaches the network (the network-call counter increases on each call). -/
theorem cached_gateway_idempotent (msgHash : List (String × String) → Int)
    (net net' : Nat → String) (gw : Gateway) (model : String)
    (messages : List (String × String)) (temperature : Rat) :
    ((call_model_with_cache true msgHash net'
        (call_model_with_cache true msgHash net gw model messages temperature).2
        model messages temperature).1 =
      (call_model_with_cache true msgHash net gw model messages temperature).1 ∧
     (call_model_with_cache true msgHash net'
        (call_model_with_cache true msgHash net gw model messages temperature).2
        model messages temperature).2.netCalls =
      (call_model_with_cache true msgHash net gw model messages temperature).2.netCalls) ∧
    (∀ gw', (call_model_with_cache false msgHash net gw' model messages
        temperature).2.netCalls = gw'.netCalls + 1) := by
  constructor
  · cases h : gw.cache.lookup (cache_key msgHash model messages temperature) with
    | some v => simp [call_model_with_cache, h]
    | none => simp [call_model_with_cache, h, List.lookup]
  · intro gw'
    simp [call_model_with_cache]

/-- Claim C1 (code bug): when the model's parsed team contains an agent named
"Coordinator" whose `order` is the integer 2, `define_agents` returns that
team unchanged, so the output contains no agent named "Coordinator" with
`order = 0` — contradicting the source's own comment "Ensure coordinator is
present and has order 0" (line 421), which checks only the name, never the
order. -/
theorem define_agents_coordinator_order_bug :
    define_agents (some [⟨some "Coordinator", some "r", some "s", some [], some 2⟩]) =
      [⟨some "Coordinator", some "r", some "s", some [], some 2⟩] ∧
    ¬ ∃ a ∈ define_agents
        (some [⟨some "Coordinator", some "r", some "s", some [], some 2⟩]),
        a.name = some "Coordinator" ∧ a.order = some 0 := by
  constructor
  · decide
  · decide

/-- Counterexample to claim C9 as stated: the agent named "Chief Coordinator"
(name contains "coordinat", but is not exactly "coordinator", and its role
does not contain "coordinate") with specialty "analysis" is routed to the
thinking-tier model, not the coordinator-tier model. -/
theorem run_agent_model_coordinator_substring_cex :
    ¬ claim_c9_coordinator_rule defaultValves
      { name := "Chief Coordinator", role := "Oversees staffing",
        specialty := "analysis", tasks := [], order := 0 } := by
  unfold claim_c9_coordinator_rule
  decide

/-- Claim C9 (amended): model-tier selection is first-match-wins, where the
coordinator rule fires only when the lowercased name is exactly
"coordinator" or the lowercased role contains "coordinate"; otherwise a
specialty keyword (thinking/analysis/reasoning/strategic/synthesis/analyst)
or combined-task keyword (analyze/evaluate/interpret/synthesize) selects the
deep-reasoning tier; otherwise the execution tier is selected. -/
theorem run_agent_model_policy (v : Valves) (agent : Agent) :
    ((pyLower agent.name = "coordinator" ∨
      pyContains (pyLower agent.role) "coordinate" = true) →
      run_agent_model v agent = v.COORDINATOR_MODEL) ∧
    ((pyLower agent.name ≠ "coordinator" ∧
      pyContains (pyLower agent.role) "coordinate" = false) →
      ((∃ kw ∈ thinking_specialty_keywords,
          pyContains (pyLower agent.specialty) kw = true) ∨
       (∃ kw ∈ thinking_task_keywords,
          pyContains (pyLower (String.intercalate " " agent.tasks)) kw = true)) →
      run_agent_model v agent = v.THINKING_MODEL) ∧
    ((pyLower agent.name ≠ "coordinator" ∧
      pyContains (pyLower agent.role) "coordinate" = false) →
      (∀ kw ∈ thinking_specialty_keywords,
        pyContains (pyLower agent.specialty) kw = false) →
      (∀ kw ∈ thinking_task_keywords,
        pyContains (pyLower (String.intercalate " " agent.tasks)) kw = false) →
      run_agent_model v agent = v.EXECUTION_MODEL) := by
  refine ⟨fun h => ?_, fun hn h => ?_, fun hn h1 h2 => ?_⟩ <;>
    simp only [run_agent_model, Bool.or_eq_true, beq_iff_eq, List.any_eq_true]
  · rw [if_pos]
    rcases h with h | h
    · exact Or.inl h
    · exact Or.inr h
  · rw [if_neg, if_pos]
    · rcases h with ⟨kw, hkw, hc⟩ | ⟨kw, hkw, hc⟩
      · exact Or.inl ⟨kw, hkw, hc⟩
      · exact Or.inr ⟨kw, hkw, hc⟩
    · rintro (h | h)
      · exact hn.1 h
      · rw [hn.2] at h; exact Bool.false_ne_true h
  · rw [if_neg, if_neg]
    · rintro (⟨kw, hkw, hc⟩ | ⟨kw, hkw, hc⟩)
      · rw [h1 kw hkw] at hc; exact Bool.false_ne_true hc
      · rw [h2 kw hkw] at hc; exact Bool.false_ne_true hc
    · rintro (h | h)
      · exact hn.1 h
      · rw [hn.2] at h; exact Bool.false_ne_true h

/-- Witness for the amended claim C9: the planner's own default Coordinator is
routed to the coordinator tier, and a non-coordinator analyst with specialty
"Data analysis" is routed to the thinking tier, under the default valves. -/
theorem run_agent_model_policy_witness :
    run_agent_model defaultValves
      { name := "Coordinator", role := "Manages workflow",
        specialty := "Coordination", tasks := ["Coordinate other agents"],
        order := 0 } = "gpt-4o-mini" ∧
    run_agent_model defaultValves
      { name := "Analyst", role := "Analyzes the provided information",
        specialty := "Data analysis", tasks := [], order := 1 } = "o1-mini" :=
  ⟨(run_agent_model_policy defaultValves _).1 (Or.inl (by decide)),
   (run_agent_model_policy defaultValves _).2.1 (by decide)
     (Or.inl ⟨"analysis", by decide, by decide⟩)⟩

/-- Counterexample to claim C5 as stated: on the response `["a","b","c","d"]`
(which `json.loads` decodes to a four-element array of strings) the planner
returns all four queries, violating the stated 0-to-3 bound — the limit is
only requested in the prompt, never enforced in code. -/
theorem research_queries_length_cex :
    get_research_queries "[\"a\", \"b\", \"c\", \"d\"]"
        (.ok (.arr [.str "a", .str "b", .str "c", .str "d"])) =
      ["a", "b", "c", "d"] ∧
    ¬ (get_research_queries "[\"a\", \"b\", \"c\", \"d\"]"
        (.ok (.arr [.str "a", .str "b", .str "c", .str "d"]))).length ≤ 3 := by
  constructor
  · rfl
  · decide

/-- Claim C5 (amended): the research-query planner never raises (it is a
total function into `List String`) and follows this parsing policy: a
response that strips and uppercases to "NONE" yields `[]`; otherwise a
successfully decoded JSON list of strings is returned as is (without any
length bound); a JSON decode error falls back to extracting every
double-quoted substring; any other decoded JSON value yields `[]`. -/
theorem research_queries_policy (response : String) (parsed : JsonParse) :
    (pyUpper (pyStrip response) = "NONE" → get_research_queries response parsed = []) ∧
    (pyUpper (pyStrip response) ≠ "NONE" →
      (∀ j qs, parsed = .ok j → asStringList j = some qs →
        get_research_queries response parsed = qs) ∧
      (∀ j, parsed = .ok j → asStringList j = none →
        get_research_queries response parsed = []) ∧
      (parsed = .decodeError →
        get_research_queries response parsed = findQuoted response)) := by
  refine ⟨fun h => ?_, fun hn => ⟨fun j qs hj hs => ?_, fun j hj hs => ?_, fun hd => ?_⟩⟩
  · simp [get_research_queries, h]
  · simp [get_research_queries, hn, hj, hs]
  · simp [get_research_queries, hn, hj, hs]
  · subst hd
    cases hfound : (findQuoted response).isEmpty with
    | true =>
      rw [List.isEmpty_iff] at hfound
      simp [get_research_queries, hn, hfound]
    | false =>
      simp [get_research_queries, hn, hfound]

/-- Witness for the amended claim C5: a "NONE" response yields no queries; a
prose response that is not JSON yields its quoted substrings; a decoded JSON
string array is returned as is. -/
theorem research_queries_policy_witness :
    get_research_queries "NONE" .decodeError = [] ∧
    get_research_queries "maybe \"q1\" helps" .decodeError = ["q1"] ∧
    get_research_queries "[\"a\"]" (.ok (.arr [.str "a"])) = ["a"] :=
  ⟨(research_queries_policy "NONE" .decodeError).1 (by decide),
   by
     have h := ((research_queries_policy "maybe \"q1\" helps" .decodeError).2
       (by decide)).2.2 rfl
     rw [h]; rfl,
   ((research_queries_policy "[\"a\"]" (.ok (.arr [.str "a"]))).2 (by decide)).1
     (.arr [.str "a"]) ["a"] rfl rfl⟩

/-! ## Lemmas about association-list lookup and first-seen indexing -/

/-- Lookup distributes over append when the key is found on the left. -/
theorem lookup_append_some {β : Type} (m l : List (String × β)) (s : String)
    (v : β) (h : m.lookup s = some v) : (m ++ l).lookup s = some v := by
  induction m with
  | nil => simp [List.lookup] at h
  | cons p rest ih =>
    rw [List.cons_append]
    by_cases hs : s == p.1
    · simp [List.lookup, hs] at h ⊢; exact h
    · simp only [List.lookup, hs] at h ⊢
      exact ih h

/-- Lookup in `m ++ [(k, v)]` when the key is absent from `m`. -/
theorem lookup_append_none {β : Type} (m : List (String × β)) (s k : String)
    (v : β) (h : m.lookup s = none) :
    (m ++ [(k, v)]).lookup s = if s == k then some v else none := by
  induction m with
  | nil =>
    by_cases hsk : s = k
    · simp [List.lookup, hsk]
    · have hb : (s == k) = false := beq_eq_false_iff_ne.mpr hsk
      simp [List.lookup, hb, hsk]
  | cons p rest ih =>
    rw [List.cons_append]
    by_cases hs : s == p.1
    · simp [List.lookup, hs] at h
    · simp only [List.lookup, hs] at h ⊢
      exact ih h

/-- The first-occurrence index is unchanged by appending, for present keys. -/
theorem idxOfStr_append_of_mem (s : String) (l₁ l₂ : List String) (h : s ∈ l₁) :
    idxOfStr s (l₁ ++ l₂) = idxOfStr s l₁ := by
  induction l₁ with
  | nil => simp at h
  | cons x xs ih =>
    by_cases hx : x = s
    · simp [idxOfStr, hx]
    · rw [List.mem_cons] at h
      rcases h with h | h
      · exact absurd h.symm hx
      · simp [idxOfStr, hx, ih h]

/-- Appending a fresh key puts its first occurrence at the end. -/
theorem idxOfStr_append_self (s : String) (l : List String) (h : s ∉ l) :
    idxOfStr s (l ++ [s]) = l.length := by
  induction l with
  | nil => simp [idxOfStr]
  | cons x xs ih =>
    have hx : x ≠ s := fun hxs => h (hxs ▸ List.mem_cons_self x xs)
    have hxs : s ∉ xs := fun hm => h (List.mem_cons_of_mem x hm)
    simp [idxOfStr, hx, ih hxs]

/-- The citation-assignment loop agrees with first-seen indexing, for every
starting map that is the insertion-ordered dict of an already-seen list. -/
theorem assignCitAux_spec (results : List DocumentResult) :
    ∀ (m : List (String × Nat)) (seen : List String),
    (∀ s : String, m.lookup s = if s ∈ seen then some (idxOfStr s seen + 1) else none) →
    m.length = seen.length →
    (assignCitAux m results).map (·.citation_id) =
      (citationSpecIds seen (results.map citation_source_id)).map some := by
  induction results with
  | nil => intro m seen hm hlen; simp [assignCitAux, citationSpecIds]
  | cons r rs ih =>
    intro m seen hm hlen
    by_cases hmem : citation_source_id r ∈ seen
    · have hl : m.lookup (citation_source_id r) =
          some (idxOfStr (citation_source_id r) seen + 1) := by
        rw [hm]; simp [hmem]
      have hsome : (m.lookup (citation_source_id r)).isSome = true := by
        rw [hl]; rfl
      simp only [assignCitAux, citationSpecIds, List.map_cons, hsome, if_true, if_pos hmem]
      rw [hl]
      exact congrArg _ (ih m seen hm hlen)
    · have hl : m.lookup (citation_source_id r) = none := by
        rw [hm]; simp [hmem]
      have hsome : (m.lookup (citation_source_id r)).isSome = false := by
        rw [hl]; rfl
      have hupd : (m ++ [(citation_source_id r, m.length + 1)]).lookup
          (citation_source_id r) = some (m.length + 1) := by
        rw [lookup_append_none m _ _ _ hl]; simp
      simp only [assignCitAux, citationSpecIds, List.map_cons, hsome, Bool.false_eq_true,
        if_false, if_neg hmem]
      rw [hupd, hlen]
      refine congrArg _ (ih _ (seen ++ [citation_source_id r]) ?_ ?_)
      · intro s
        by_cases hs : s ∈ seen
        · have : m.lookup s = some (idxOfStr s seen + 1) := by rw [hm]; simp [hs]
          rw [lookup_append_some m _ s _ this]
          rw [idxOfStr_append_of_mem s seen _ hs]
          simp [List.mem_append, hs]
        · have hnone : m.lookup s = none := by rw [hm]; simp [hs]
          rw [lookup_append_none m s _ _ hnone]
          by_cases hseq : s = citation_source_id r
          · subst hseq
            simp [List.mem_append, idxOfStr_append_self _ seen hs, hlen]
          · have : (s == citation_source_id r) = false := by
              simp [hseq]
            simp [this, List.mem_append, hs, hseq]
      · simp [hlen]

/-- Claim C7: citation ids are assigned to filtered results in first-seen
order over unique source identifiers with stable reuse (the assignment loop
agrees with the first-seen-index specification on every result list), and in
particular three results whose sources are ["a.pdf", "b.pdf", "a.pdf"] in
rank order receive citation ids [1, 2, 1]. -/
theorem assign_citations_first_seen :
    (∀ results : List DocumentResult,
      (assign_citations results).map (·.citation_id) =
        (citationSpecIds [] (results.map citation_source_id)).map some) ∧
    (assign_citations
        [ragDoc "t1" "a.pdf" 1, ragDoc "t2" "b.pdf" 1, ragDoc "t3" "a.pdf" 1]).map
      (·.citation_id) = [some 1, some 2, some 1] := by
  constructor
  · intro results
    exact assignCitAux_spec results [] [] (fun s => by simp [List.lookup]) rfl
  · decide

set_option maxRecDepth 100000 in
/-- Claim C8: `format_sources_for_llm` with the default template, applied to a
response whose context string is the literal tag
`<source id="1" name="doc.pdf">hello</source>` and whose query is "Q",
yields one string containing the literal source tag and the literal query
text (substituted into the `\x7b\x7bCONTEXT\x7d\x7d` and
`\x7b\x7bQUERY\x7d\x7d` placeholders, neither of which survives). -/
theorem format_sources_round_trip :
    pyContains (format_sources_for_llm c8_response none)
      "<source id=\"1\" name=\"doc.pdf\">hello</source>" = true ∧
    pyContains (format_sources_for_llm c8_response none) "Q" = true ∧
    pyContains (format_sources_for_llm c8_response none) "Query: Q" = true ∧
    pyContains (format_sources_for_llm c8_response none) "\x7b\x7bCONTEXT\x7d\x7d" = false ∧
    pyContains (format_sources_for_llm c8_response none) "\x7b\x7bQUERY\x7d\x7d" = false := by
  refine ⟨?_, ?_, ?_, ?_, ?_⟩ <;> decide

/-- The merged result rows depend only on which collection queries succeeded
and on their rows — never on the error values of failed queries. -/
theorem merge_collection_results_congr
    (rs rs' : List (Except String (List DocumentResult)))
    (h : rs.map Except.toOption = rs'.map Except.toOption) :
    merge_collection_results rs = merge_collection_results rs' := by
  unfold merge_collection_results
  suffices hgen : ∀ acc : List DocumentResult,
      rs.foldl (fun acc r => match r with | .error _ => acc | .ok rows => acc ++ rows) acc =
      rs'.foldl (fun acc r => match r with | .error _ => acc | .ok rows => acc ++ rows) acc by
    exact hgen []
  induction rs generalizing rs' with
  | nil =>
    intro acc
    have : rs' = [] := by
      cases rs' with
      | nil => rfl
      | cons x xs => simp at h
    rw [this]
  | cons r rest ih =>
    intro acc
    cases rs' with
    | nil => simp at h
    | cons r' rest' =>
      simp only [List.map_cons, List.cons.injEq] at h
      obtain ⟨h1, h2⟩ := h
      cases r with
      | error e =>
        cases r' with
        | error e' =>
          simp only [List.foldl_cons]
          exact ih rest' h2 acc
        | ok rows' => simp [Except.toOption] at h1
      | ok rows =>
        cases r' with
        | error e' => simp [Except.toOption] at h1
        | ok rows' =>
          have hr : rows = rows' := by simpa [Except.toOption] using h1
          subst hr
          simp only [List.foldl_cons]
          exact ih rest' h2 (acc ++ rows)

/-- Claim C10: `query_rag_for_user` fails with a `ValueError` exactly when the
knowledge-base listing returns zero accessible collections; a transport error
raised by the listing call itself propagates; in every other case the
function returns a response and never raises — in particular, per-collection
query failures are skipped: the outcome is unchanged by replacing the
per-collection oracle with any other oracle that succeeds on the same
collections with the same rows (failure messages are irrelevant). -/
theorem query_rag_error_policy (user_id : String) (top_k : Nat) (thr : Rat)
    (fmt : Bool) (listing : Except String (List (String × String)))
    (queryColl queryColl' : String → String → Except String (List DocumentResult))
    (query : String) :
    ((∃ m, query_rag_for_user user_id top_k thr fmt listing queryColl query =
        .error (.valueError m)) ↔ listing = .ok []) ∧
    (∀ e, listing = .error e →
      query_rag_for_user user_id top_k thr fmt listing queryColl query =
        .error (.httpError e)) ∧
    (∀ cols, listing = .ok cols → cols ≠ [] →
      ∃ resp, query_rag_for_user user_id top_k thr fmt listing queryColl query =
        .ok resp) ∧
    ((∀ cid cname, (queryColl cid cname).toOption = (queryColl' cid cname).toOption) →
      query_rag_for_user user_id top_k thr fmt listing queryColl query =
        query_rag_for_user user_id top_k thr fmt listing queryColl' query) := by
  refine ⟨?_, ?_, ?_, ?_⟩
  · constructor
    · intro ⟨m, hm⟩
      cases listing with
      | error e => simp [query_rag_for_user] at hm
      | ok cols =>
        cases cols with
        | nil => rfl
        | cons c cs => simp [query_rag_for_user] at hm
    · intro hl
      subst hl
      exact ⟨s!"No knowledge bases accessible for user {user_id}", rfl⟩
  · intro e hl
    subst hl
    rfl
  · intro cols hl hne
    subst hl
    have : cols.isEmpty = false := by
      cases cols with
      | nil => exact absurd rfl hne
      | cons c cs => rfl
    simp only [query_rag_for_user, this, Bool.false_eq_true, if_false]
    exact ⟨_, rfl⟩
  · intro h
    cases listing with
    | error e => rfl
    | ok cols =>
      cases hc : cols.isEmpty with
      | true => simp [query_rag_for_user, hc]
      | false =>
        have hmerge :
            merge_collection_results (cols.map fun c => queryColl c.1 c.2) =
            merge_collection_results (cols.map fun c => queryColl' c.1 c.2) := by
          apply merge_collection_results_congr
          simp only [List.map_map]
          exact List.map_congr_left (fun c _ => h c.1 c.2)
        simp only [query_rag_for_user, hc, Bool.false_eq_true, if_false, hmerge]

/-- Witness for C10: an empty listing yields the `ValueError`; a listing
transport error propagates as such; with one accessible collection whose
query fails, the call still returns a response. -/
theorem query_rag_error_policy_witness :
    (∃ m, query_rag_for_user "u1" 5 0 true (.ok []) (fun _ _ => .error "down") "q" =
      .error (.valueError m)) ∧
    query_rag_for_user "u1" 5 0 true (.error "connection reset")
      (fun _ _ => .error "down") "q" = .error (.httpError "connection reset") ∧
    ∃ resp, query_rag_for_user "u1" 5 0 true (.ok [("kb-id-1", "kb1")])
      (fun _ _ => .error "down") "q" = .ok resp :=
  ⟨(query_rag_error_policy "u1" 5 0 true (.ok []) (fun _ _ => .error "down")
      (fun _ _ => .error "down") "q").1.mpr rfl,
   (query_rag_error_policy "u1" 5 0 true (.error "connection reset")
      (fun _ _ => .error "down") (fun _ _ => .error "down") "q").2.1
     "connection reset" rfl,
   (query_rag_error_policy "u1" 5 0 true (.ok [("kb-id-1", "kb1")])
      (fun _ _ => .error "down") (fun _ _ => .error "down") "q").2.2.1
     [("kb-id-1", "kb1")] rfl (by simp)⟩

/-- Awaiting one agent appends exactly its terminal event to the trace. -/
theorem awaitAgent_trace (relResp : String → Agent → String)
    (outcome : Agent → Except String String) (agents : List Agent)
    (current_order : Int) (st : PipeState) (a : Agent) :
    (awaitAgent relResp outcome agents current_order st a).trace =
      st.trace ++ [.term a (outcomeOk outcome a)] := by
  cases h : outcome a <;> simp [awaitAgent, outcomeOk, h]

/-- Awaiting a whole phase appends one terminal event per phase agent. -/
theorem foldl_awaitAgent_trace (relResp : String → Agent → String)
    (outcome : Agent → Except String String) (agents : List Agent)
    (current_order : Int) (phase : List Agent) :
    ∀ st : PipeState,
    (phase.foldl (awaitAgent relResp outcome agents current_order) st).trace =
      st.trace ++ phase.map (fun a => .term a (outcomeOk outcome a)) := by
  induction phase with
  | nil => intro st; simp
  | cons a rest ih =>
    intro st
    rw [List.foldl_cons, ih, awaitAgent_trace, List.map_cons, List.append_assoc,
      List.singleton_append]

/-- One phase contributes exactly its block to the trace: all starts, then the
terminal events. -/
theorem runPhase_trace (relResp : String → Agent → String)
    (outcome : Agent → Except String String) (agents phase : List Agent)
    (current_order : Int) (st : PipeState) :
    (runPhase relResp outcome agents phase current_order st).trace =
      st.trace ++ phase_block outcome phase := by
  rw [runPhase]
  rw [foldl_awaitAgent_trace]
  simp [phase_block]

/-- The full trace is the concatenation of the per-phase blocks, in phase
order. -/
theorem run_phases_trace (relResp : String → Agent → String)
    (outcome : Agent → Except String String) (task research : String)
    (agents : List Agent) :
    (run_phases relResp outcome task research agents).trace =
      ((sorted_orders agents).map
        (fun o => phase_block outcome (phase_agents agents o))).flatten := by
  rw [run_phases]
  suffices hgen : ∀ (orders : List Int) (st : PipeState),
      (orders.foldl
        (fun st o => runPhase relResp outcome agents (phase_agents agents o) o st)
        st).trace =
      st.trace ++ (orders.map (fun o => phase_block outcome (phase_agents agents o))).flatten by
    rw [hgen]; simp [init_state]
  intro orders
  induction orders with
  | nil => intro st; simp
  | cons o rest ih =>
    intro st
    rw [List.foldl_cons, ih, runPhase_trace, List.map_cons, List.flatten_cons,
      List.append_assoc]

/-- Membership in an ascending insertion. -/
theorem mem_insertSortedInt (x o : Int) (l : List Int) :
    x ∈ insertSortedInt o l ↔ x = o ∨ x ∈ l := by
  induction l with
  | nil => simp [insertSortedInt]
  | cons y ys ih =>
    by_cases h : o ≤ y
    · simp [insertSortedInt, h]
    · simp only [insertSortedInt, if_neg h, List.mem_cons, ih]
      tauto

/-- Membership in the insertion sort. -/
theorem mem_foldr_insertSortedInt (x : Int) (l : List Int) :
    x ∈ l.foldr insertSortedInt [] ↔ x ∈ l := by
  induction l with
  | nil => simp
  | cons y ys ih => simp [mem_insertSortedInt, ih]

/-- Membership in the first-occurrence deduplication. -/
theorem mem_dedupOrders (x : Int) (l : List Int) :
    x ∈ dedupOrders l ↔ x ∈ l := by
  unfold dedupOrders
  suffices hgen : ∀ acc : List Int,
      x ∈ l.foldl (fun acc o => if o ∈ acc then acc else acc ++ [o]) acc ↔
      x ∈ acc ∨ x ∈ l by
    simpa using hgen []
  induction l with
  | nil => intro acc; simp
  | cons o os ih =>
    intro acc
    by_cases h : o ∈ acc
    · rw [List.foldl_cons, if_pos h, ih]
      constructor
      · rintro (hx | hx)
        · exact Or.inl hx
        · exact Or.inr (List.mem_cons_of_mem o hx)
      · rintro (hx | hx)
        · exact Or.inl hx
        · rcases List.mem_cons.mp hx with rfl | hx
          · exact Or.inl h
          · exact Or.inr hx
    · rw [List.foldl_cons, if_neg h, ih]
      simp only [List.mem_append, List.mem_singleton, List.mem_cons]
      tauto

/-- Deduplication produces a duplicate-free list. -/
theorem nodup_dedupOrders (l : List Int) : (dedupOrders l).Nodup := by
  unfold dedupOrders
  suffices hgen : ∀ acc : List Int, acc.Nodup →
      (l.foldl (fun acc o => if o ∈ acc then acc else acc ++ [o]) acc).Nodup by
    exact hgen [] List.nodup_nil
  induction l with
  | nil => intro acc hn; simpa using hn
  | cons o os ih =>
    intro acc hn
    by_cases h : o ∈ acc
    · rw [List.foldl_cons, if_pos h]; exact ih acc hn
    · rw [List.foldl_cons, if_neg h]
      refine ih _ ?_
      simp [List.nodup_append, hn, h]

/-- Insertion preserves ascending order. -/
theorem pairwise_le_insertSortedInt (o : Int) (l : List Int)
    (h : l.Pairwise (· ≤ ·)) : (insertSortedInt o l).Pairwise (· ≤ ·) := by
  induction l with
  | nil => simp [insertSortedInt]
  | cons y ys ih =>
    rcases List.pairwise_cons.mp h with ⟨hy, hys⟩
    by_cases hle : o ≤ y
    · rw [insertSortedInt, if_pos hle]
      refine List.pairwise_cons.mpr ⟨?_, h⟩
      intro z hz
      rcases List.mem_cons.mp hz with rfl | hz
      · exact hle
      · exact le_trans hle (hy z hz)
    · rw [insertSortedInt, if_neg hle]
      refine List.pairwise_cons.mpr ⟨?_, ih hys⟩
      intro z hz
      rcases (mem_insertSortedInt z o ys).mp hz with rfl | hz
      · exact le_of_not_le hle
      · exact hy z hz

/-- Insertion of a fresh element preserves duplicate-freedom. -/
theorem nodup_insertSortedInt (o : Int) (l : List Int) (hl : l.Nodup)
    (ho : o ∉ l) : (insertSortedInt o l).Nodup := by
  induction l with
  | nil => simp [insertSortedInt]
  | cons y ys ih =>
    rcases List.nodup_cons.mp hl with ⟨hy, hys⟩
    have hoy : o ≠ y := fun h => ho (h ▸ List.mem_cons_self y ys)
    have hoys : o ∉ ys := fun h => ho (List.mem_cons_of_mem y h)
    by_cases hle : o ≤ y
    · rw [insertSortedInt, if_pos hle]
      exact List.nodup_cons.mpr ⟨ho, hl⟩
    · rw [insertSortedInt, if_neg hle]
      refine List.nodup_cons.mpr ⟨?_, ih hys hoys⟩
      intro hmem
      rcases (mem_insertSortedInt y o ys).mp hmem with rfl | hmem
      · exact hoy rfl
      · exact hy hmem

/-- The phase schedule is strictly ascending. -/
theorem sorted_orders_pairwise_lt (agents : List Agent) :
    (sorted_orders agents).Pairwise (· < ·) := by
  unfold sorted_orders
  have hkey : ∀ l : List Int, l.Nodup →
      (l.foldr insertSortedInt []).Pairwise (· ≤ ·) ∧
      (l.foldr insertSortedInt []).Nodup := by
    intro l hl
    induction l with
    | nil => simp
    | cons y ys ih =>
      rcases List.nodup_cons.mp hl with ⟨hy, hys⟩
      rcases ih hys with ⟨hsorted, hnodup⟩
      refine ⟨pairwise_le_insertSortedInt y _ hsorted, ?_⟩
      refine nodup_insertSortedInt y _ hnodup ?_
      intro hmem
      exact hy ((mem_foldr_insertSortedInt y ys).mp hmem)
  rcases hkey (dedupOrders (agents.map (·.order))) (nodup_dedupOrders _) with ⟨hle, hnd⟩
  exact (hle.and hnd).imp (fun h => lt_of_le_of_ne h.1 h.2)

/-- The phase schedule contains exactly the orders of the agents. -/
theorem mem_sorted_orders (agents : List Agent) (o : Int) :
    o ∈ sorted_orders agents ↔ ∃ a ∈ agents, a.order = o := by
  unfold sorted_orders
  rw [mem_foldr_insertSortedInt, mem_dedupOrders, List.mem_map]

/-- Phase membership. -/
theorem mem_phase_agents (agents : List Agent) (o : Int) (a : Agent) :
    a ∈ phase_agents agents o ↔ a ∈ agents ∧ a.order = o := by
  simp [phase_agents, List.mem_filter]

/-- A start event sits in a phase block exactly when the agent is in the
phase. -/
theorem start_mem_phase_block (outcome : Agent → Except String String)
    (phase : List Agent) (b : Agent) :
    AgentEvent.start b ∈ phase_block outcome phase ↔ b ∈ phase := by
  simp [phase_block]

/-- Every phase agent's terminal event sits in the phase block. -/
theorem term_mem_phase_block (outcome : Agent → Except String String)
    (phase : List Agent) (a : Agent) (ha : a ∈ phase) :
    AgentEvent.term a (outcomeOk outcome a) ∈ phase_block outcome phase := by
  simp only [phase_block, List.mem_append, List.mem_map]
  exact Or.inr ⟨a, ha, rfl⟩

/-- In a concatenation of strictly-ascending phase blocks, everything in a
block of strictly smaller order precedes any start event of agent `b`. -/
theorem start_in_join_preceded (blockOf : Int → List AgentEvent) (b : Agent)
    (horder : ∀ o : Int, AgentEvent.start b ∈ blockOf o → o = b.order) :
    ∀ orders : List Int, orders.Pairwise (· < ·) →
    ∀ i, ((orders.map blockOf).flatten).get? i = some (.start b) →
    ∀ o ∈ orders, o < b.order →
    ∀ ev ∈ blockOf o, ev ∈ ((orders.map blockOf).flatten).take i := by
  intro orders
  induction orders with
  | nil => intro _ i hget; simp at hget
  | cons o0 rest ih =>
    intro hpw i hget o ho hlt ev hev
    rw [List.map_cons, List.flatten_cons] at hget ⊢
    by_cases hi : i < (blockOf o0).length
    · rw [List.get?_append hi] at hget
      have hb0 : AgentEvent.start b ∈ blockOf o0 := List.get?_mem hget
      have ho0 : o0 = b.order := horder o0 hb0
      rcases List.mem_cons.mp ho with rfl | hor
      · omega
      · have h01 := (List.pairwise_cons.mp hpw).1 o hor
        omega
    · push_neg at hi
      rw [List.get?_append_right hi] at hget
      rw [List.take_append_eq_append_take, List.take_all_of_le hi]
      rcases List.mem_cons.mp ho with rfl | hor
      · exact List.mem_append_left _ hev
      · exact List.mem_append_right _
          (ih (List.pairwise_cons.mp hpw).2 _ hget o hor hlt ev hev)

/-- Claim C6: no agent in a phase of order `k` begins execution (its start
event in the scheduling trace) before every agent of every strictly smaller
order has reached a terminal state (its success-or-recorded-failure event
appears earlier in the trace).  The statement quantifies over all agent
lists, outcomes and relevance replies, hence over every within-phase
completion order — within one phase no ordering is asserted. -/
theorem phase_ordering (relResp : String → Agent → String)
    (outcome : Agent → Except String String) (task research : String)
    (agents : List Agent) (i : Nat) (b : Agent)
    (hget : (run_phases relResp outcome task research agents).trace.get? i =
      some (.start b)) :
    ∀ a ∈ agents, a.order < b.order →
      AgentEvent.term a (outcomeOk outcome a) ∈
        (run_phases relResp outcome task research agents).trace.take i := by
  rw [run_phases_trace] at hget ⊢
  intro a ha hlt
  refine start_in_join_preceded
    (fun o => phase_block outcome (phase_agents agents o)) b ?_
    (sorted_orders agents) (sorted_orders_pairwise_lt agents) i hget a.order ?_ hlt _ ?_
  · intro o hmem
    have hb := (start_mem_phase_block outcome _ b).mp hmem
    exact ((mem_phase_agents agents o b).mp hb).2.symm
  · exact (mem_sorted_orders agents a.order).mpr ⟨a, ha, rfl⟩
  · exact term_mem_phase_block outcome _ a ((mem_phase_agents agents a.order a).mpr ⟨ha, rfl⟩)

/-- Witness for C6: in the two-phase run with a Coordinator at order 0 and a
worker at order 1 (all awaits succeeding), the worker's start event sits at
trace index 2, and the Coordinator's terminal event already occurs among the
first two events. -/
theorem phase_ordering_witness :
    AgentEvent.term c6_coord (outcomeOk (fun _ => .ok "out") c6_coord) ∈
      (run_phases (fun _ _ => "YES") (fun _ => .ok "out") "task" ""
        [c6_coord, c6_worker]).trace.take 2 :=
  phase_ordering (fun _ _ => "YES") (fun _ => .ok "out") "task" ""
    [c6_coord, c6_worker] 2 c6_worker (by decide) c6_coord (by decide) (by decide)

/-- One step of a context append. -/
theorem ctxAppend_cons (k : String) (v : List Chunk)
    (rest : List (String × List Chunk)) (name : String) (ch : Chunk) :
    ctxAppend ((k, v) :: rest) name ch =
      (if k = name then (k, v ++ [ch]) else (k, v)) :: ctxAppend rest name ch := rfl

/-- Effect of a context append on lookups: only the targeted name changes,
by appending the chunk. -/
theorem lookup_ctxAppend (cs : List (String × List Chunk)) (name n : String)
    (ch : Chunk) :
    (ctxAppend cs name ch).lookup n =
      if n = name then (cs.lookup n).map (fun l => l ++ [ch]) else cs.lookup n := by
  induction cs with
  | nil => by_cases h : n = name <;> simp [ctxAppend, List.lookup, h]
  | cons p rest ih =>
    obtain ⟨k, v⟩ := p
    rw [ctxAppend_cons]
    by_cases hk : k = name
    · rw [if_pos hk]
      by_cases hn : n = k
      · have hb : (n == k) = true := by simp [hn]
        have hne : n = name := hn.trans hk
        simp [List.lookup, hb, hne, hk]
      · have hb : (n == k) = false := beq_eq_false_iff_ne.mpr hn
        have hnn : ¬n = name := fun h => hn (h.trans hk.symm)
        simp [List.lookup, hb, hnn, ih]
    · rw [if_neg hk]
      by_cases hn : n = k
      · have hb : (n == k) = true := by simp [hn]
        have hnn : ¬n = name := fun h => hk (hn.symm.trans h)
        simp [List.lookup, hb, hnn]
      · have hb : (n == k) = false := beq_eq_false_iff_ne.mpr hn
        simp [List.lookup, hb, ih]

/-- Appending never invalidates a context entry. -/
theorem isSome_lookup_ctxAppend (cs : List (String × List Chunk))
    (name n : String) (ch : Chunk) :
    ((ctxAppend cs name ch).lookup n).isSome = ((cs.lookup n).isSome) := by
  rw [lookup_ctxAppend]
  by_cases h : n = name <;> simp [h]

/-- The appended chunk is in the targeted context entry afterwards. -/
theorem mem_ctxAppend_self (cs : List (String × List Chunk)) (n : String)
    (ch : Chunk) (hpresent : ((cs.lookup n).isSome) = true) :
    ch ∈ (((ctxAppend cs n ch).lookup n).getD []) := by
  rw [lookup_ctxAppend, if_pos rfl]
  cases h : cs.lookup n with
  | none => rw [h] at hpresent; simp at hpresent
  | some l => simp [h]

/-- Chunks already present survive an append. -/
theorem mem_ctxAppend_mono (cs : List (String × List Chunk))
    (name n : String) (ch' ch : Chunk) (h : ch ∈ ((cs.lookup n).getD [])) :
    ch ∈ (((ctxAppend cs name ch').lookup n).getD []) := by
  rw [lookup_ctxAppend]
  by_cases hn : n = name
  · rw [if_pos hn]
    cases hcs : cs.lookup n with
    | none => rw [hcs] at h; simp at h
    | some l => rw [hcs] at h; simp at h ⊢; exact Or.inl h
  · rw [if_neg hn]; exact h

/-- One propagation step never invalidates a context entry. -/
theorem propagate_step_isSome (rel : String → Agent → Bool) (o : Int)
    (cn r : String) (cs : List (String × List Chunk)) (fa : Agent)
    (n : String) :
    (((propagate_step rel o cn r cs fa).lookup n).isSome) = ((cs.lookup n).isSome) := by
  unfold propagate_step
  split_ifs <;> first
    | rfl
    | simp [isSome_lookup_ctxAppend]

/-- Chunks survive one propagation step. -/
theorem propagate_step_mono (rel : String → Agent → Bool) (o : Int)
    (cn r : String) (cs : List (String × List Chunk)) (fa : Agent)
    (n : String) (ch : Chunk) (h : ch ∈ ((cs.lookup n).getD [])) :
    ch ∈ (((propagate_step rel o cn r cs fa).lookup n).getD []) := by
  unfold propagate_step
  split_ifs <;> first
    | exact mem_ctxAppend_mono cs fa.name n _ ch h
    | exact h

/-- Origin of a chunk after one propagation step: it was already there, or it
is the completed output, appended for a candidate that satisfies the
source's branch conditions. -/
theorem mem_propagate_step (rel : String → Agent → Bool) (o : Int)
    (cn r : String) (cs : List (String × List Chunk)) (fa : Agent)
    (n : String) (ch : Chunk)
    (h : ch ∈ (((propagate_step rel o cn r cs fa).lookup n).getD [])) :
    ch ∈ ((cs.lookup n).getD []) ∨
    (ch = Chunk.output cn r ∧ fa.name = n ∧ fa.name ≠ cn ∧
      ((fa.order > o ∧ rel r fa = true) ∨ (¬fa.order > o ∧ fa.name = "Coordinator"))) := by
  unfold propagate_step at h
  split_ifs at h with h1 h2 h3 h4
  · -- later phase, relevance accepted: an append to fa.name happened
    rw [lookup_ctxAppend] at h
    by_cases hn : n = fa.name
    · rw [if_pos hn] at h
      cases hcs : cs.lookup n with
      | none => rw [hcs] at h; simp at h
      | some l =>
        rw [hcs] at h
        simp at h
        rcases h with h | h
        · exact Or.inl h
        · exact Or.inr ⟨h, hn.symm, h1, Or.inl ⟨h2, h3⟩⟩
    · rw [if_neg hn] at h
      exact Or.inl h
  · exact Or.inl h
  · -- Coordinator branch: an append to fa.name happened
    rw [lookup_ctxAppend] at h
    by_cases hn : n = fa.name
    · rw [if_pos hn] at h
      cases hcs : cs.lookup n with
      | none => rw [hcs] at h; simp at h
      | some l =>
        rw [hcs] at h
        simp at h
        rcases h with h | h
        · exact Or.inl h
        · exact Or.inr ⟨h, hn.symm, h1, Or.inr ⟨h2, h4⟩⟩
    · rw [if_neg hn] at h
      exact Or.inl h
  · exact Or.inl h
  · exact Or.inl h

/-- The whole propagation loop never invalidates a context entry. -/
theorem propagate_isSome (rel : String → Agent → Bool) (agents : List Agent)
    (o : Int) (cn r : String) (n : String) :
    ∀ cs, (((propagate rel agents o cn r cs).lookup n).isSome) = ((cs.lookup n).isSome) := by
  induction agents with
  | nil => intro cs; rfl
  | cons fa rest ih =>
    intro cs
    show (((propagate rel rest o cn r (propagate_step rel o cn r cs fa)).lookup n).isSome) = _
    rw [ih (propagate_step rel o cn r cs fa), propagate_step_isSome]

/-- Chunks survive the whole propagation loop. -/
theorem propagate_mono (rel : String → Agent → Bool) (agents : List Agent)
    (o : Int) (cn r : String) (n : String) (ch : Chunk) :
    ∀ cs, ch ∈ ((cs.lookup n).getD []) →
      ch ∈ (((propagate rel agents o cn r cs).lookup n).getD []) := by
  induction agents with
  | nil => intro cs h; exact h
  | cons fa rest ih =>
    intro cs h
    exact ih (propagate_step rel o cn r cs fa) (propagate_step_mono rel o cn r cs fa n ch h)

/-- Origin of a chunk after the whole propagation loop. -/
theorem mem_propagate (rel : String → Agent → Bool) (agents : List Agent)
    (o : Int) (cn r : String) (n : String) (ch : Chunk) :
    ∀ cs, ch ∈ (((propagate rel agents o cn r cs).lookup n).getD []) →
    ch ∈ ((cs.lookup n).getD []) ∨
    (ch = Chunk.output cn r ∧ ∃ fa ∈ agents, fa.name = n ∧ fa.name ≠ cn ∧
      ((fa.order > o ∧ rel r fa = true) ∨ (¬fa.order > o ∧ fa.name = "Coordinator"))) := by
  induction agents with
  | nil => intro cs h; exact Or.inl h
  | cons fa rest ih =>
    intro cs h
    rcases ih (propagate_step rel o cn r cs fa) h with h' | ⟨hch, fa', hfa', hrest⟩
    · rcases mem_propagate_step rel o cn r cs fa n ch h' with h'' | ⟨hch, hname, hne, hcond⟩
      · exact Or.inl h''
      · exact Or.inr ⟨hch, fa, List.mem_cons_self fa rest, hname, hne, hcond⟩
    · exact Or.inr ⟨hch, fa', List.mem_cons_of_mem fa hfa', hrest⟩

/-- If some team member named `b.name` satisfies the branch conditions, the
propagation loop adds the completed output to that context. -/
theorem propagate_adds (rel : String → Agent → Bool) (agents : List Agent)
    (o : Int) (cn r : String) (b : Agent) (hb : b ∈ agents) :
    ∀ cs, ((cs.lookup b.name).isSome) = true → b.name ≠ cn →
    ((b.order > o ∧ rel r b = true) ∨ (¬b.order > o ∧ b.name = "Coordinator")) →
    Chunk.output cn r ∈ (((propagate rel agents o cn r cs).lookup b.name).getD []) := by
  induction agents with
  | nil => cases hb
  | cons fa rest ih =>
    intro cs hpresent hne hcond
    rcases List.mem_cons.mp hb with rfl | hb'
    · -- the step for b itself appends; later steps keep the chunk
      have hstep : Chunk.output cn r ∈
          (((propagate_step rel o cn r cs b).lookup b.name).getD []) := by
        unfold propagate_step
        rcases hcond with ⟨hgt, hrel⟩ | ⟨hngt, hcoord⟩
        · rw [if_pos hne, if_pos hgt, if_pos hrel]
          exact mem_ctxAppend_self cs b.name _ hpresent
        · rw [if_pos hne, if_neg hngt, if_pos hcoord]
          exact mem_ctxAppend_self cs b.name _ hpresent
      exact propagate_mono rel rest o cn r b.name _ _ hstep
    · exact ih hb' (propagate_step rel o cn r cs fa)
        (by rw [propagate_step_isSome]; exact hpresent) hne hcond

/-- Contexts after one await: the propagation loop ran exactly when the agent
succeeded. -/
theorem awaitAgent_contexts (relResp : String → Agent → String)
    (outcome : Agent → Except String String) (agents : List Agent) (o : Int)
    (st : PipeState) (c : Agent) :
    (awaitAgent relResp outcome agents o st c).contexts =
      match outcome c with
      | .ok r => propagate (fun info fa => is_relevant (relResp info fa))
          agents o c.name r st.contexts
      | .error _ => st.contexts := by
  cases h : outcome c <;> simp [awaitAgent, h]

/-- One await never invalidates a context entry. -/
theorem awaitAgent_isSome (relResp : String → Agent → String)
    (outcome : Agent → Except String String) (agents : List Agent) (o : Int)
    (st : PipeState) (c : Agent) (n : String) :
    (((awaitAgent relResp outcome agents o st c).contexts.lookup n).isSome) =
      ((st.contexts.lookup n).isSome) := by
  rw [awaitAgent_contexts]
  cases h : outcome c
  · simp
  · simp [propagate_isSome]

/-- Chunks survive one await. -/
theorem awaitAgent_mono (relResp : String → Agent → String)
    (outcome : Agent → Except String String) (agents : List Agent) (o : Int)
    (st : PipeState) (c : Agent) (n : String) (ch : Chunk)
    (h : ch ∈ ((st.contexts.lookup n).getD [])) :
    ch ∈ (((awaitAgent relResp outcome agents o st c).contexts.lookup n).getD []) := by
  rw [awaitAgent_contexts]
  cases hc : outcome c
  · simpa using h
  · simpa using propagate_mono _ agents o _ _ n ch st.contexts h

/-- Awaiting a phase never invalidates a context entry. -/
theorem foldl_await_isSome (relResp : String → Agent → String)
    (outcome : Agent → Except String String) (agents : List Agent) (o : Int)
    (phase : List Agent) (n : String) :
    ∀ st : PipeState,
      (((phase.foldl (awaitAgent relResp outcome agents o) st).contexts.lookup n).isSome) =
        ((st.contexts.lookup n).isSome) := by
  induction phase with
  | nil => intro st; rfl
  | cons c rest ih =>
    intro st
    rw [List.foldl_cons, ih, awaitAgent_isSome]

/-- Chunks survive a phase. -/
theorem foldl_await_mono (relResp : String → Agent → String)
    (outcome : Agent → Except String String) (agents : List Agent) (o : Int)
    (phase : List Agent) (n : String) (ch : Chunk) :
    ∀ st : PipeState, ch ∈ ((st.contexts.lookup n).getD []) →
      ch ∈ (((phase.foldl (awaitAgent relResp outcome agents o) st).contexts.lookup n).getD []) := by
  induction phase with
  | nil => intro st h; exact h
  | cons c rest ih =>
    intro st h
    rw [List.foldl_cons]
    exact ih _ (awaitAgent_mono relResp outcome agents o st c n ch h)

/-- If a phase agent succeeds and the branch conditions hold for `b`, the
phase deposits the output into `b`'s context. -/
theorem foldl_await_adds (relResp : String → Agent → String)
    (outcome : Agent → Except String String) (agents : List Agent) (o : Int)
    (phase : List Agent) (a b : Agent) (ha : a ∈ phase) (hb : b ∈ agents)
    (r : String) (hok : outcome a = .ok r) (hne : b.name ≠ a.name)
    (hcond : (b.order > o ∧ is_relevant (relResp r b) = true) ∨
             (¬b.order > o ∧ b.name = "Coordinator")) :
    ∀ st : PipeState, ((st.contexts.lookup b.name).isSome) = true →
      Chunk.output a.name r ∈
        (((phase.foldl (awaitAgent relResp outcome agents o) st).contexts.lookup b.name).getD []) := by
  induction phase with
  | nil => cases ha
  | cons c rest ih =>
    intro st hpresent
    rw [List.foldl_cons]
    rcases List.mem_cons.mp ha with rfl | ha'
    · refine foldl_await_mono relResp outcome agents o rest b.name _ _ ?_
      have hctx : (awaitAgent relResp outcome agents o st a).contexts =
          propagate (fun info fa => is_relevant (relResp info fa)) agents o
            a.name r st.contexts := by
        rw [awaitAgent_contexts, hok]
      rw [hctx]
      exact propagate_adds _ agents o a.name r b hb st.contexts hpresent hne hcond
    · exact ih ha' _ (by rw [awaitAgent_isSome]; exact hpresent)

/-- Origin of a chunk deposited during one phase. -/
theorem mem_foldl_await (relResp : String → Agent → String)
    (outcome : Agent → Except String String) (agents : List Agent) (o : Int)
    (phase : List Agent) (n : String) (ch : Chunk) :
    ∀ st : PipeState,
      ch ∈ (((phase.foldl (awaitAgent relResp outcome agents o) st).contexts.lookup n).getD []) →
      ch ∈ ((st.contexts.lookup n).getD []) ∨
      ∃ c ∈ phase, ∃ rr : String, outcome c = .ok rr ∧ ch = Chunk.output c.name rr ∧
        ∃ fa ∈ agents, fa.name = n ∧ fa.name ≠ c.name ∧
          ((fa.order > o ∧ is_relevant (relResp rr fa) = true) ∨
           (¬fa.order > o ∧ fa.name = "Coordinator")) := by
  induction phase with
  | nil => intro st h; exact Or.inl h
  | cons c rest ih =>
    intro st h
    rw [List.foldl_cons] at h
    rcases ih _ h with h' | ⟨c', hc', rr, hrr, hch, hfa⟩
    · rw [awaitAgent_contexts] at h'
      cases hc : outcome c with
      | error e => rw [hc] at h'; exact Or.inl h'
      | ok rr =>
        rw [hc] at h'
        rcases mem_propagate _ agents o c.name rr n ch st.contexts h' with h'' | ⟨hch, fa, hfa, hrest⟩
        · exact Or.inl h''
        · exact Or.inr ⟨c, List.mem_cons_self c rest, rr, hc, hch, fa, hfa, hrest⟩
    · exact Or.inr ⟨c', List.mem_cons_of_mem c hc', rr, hrr, hch, hfa⟩

/-- `runPhase` is, up to progress/trace bookkeeping, the phase await-fold on
a state with the same contexts. -/
theorem runPhase_contexts (relResp : String → Agent → String)
    (outcome : Agent → Except String String) (agents phase : List Agent)
    (o : Int) (st : PipeState) :
    ∃ st' : PipeState, st'.contexts = st.contexts ∧
      runPhase relResp outcome agents phase o st =
        phase.foldl (awaitAgent relResp outcome agents o) st' :=
  ⟨{ st with
      progress_messages := st.progress_messages ++ [phase_header o phase],
      trace := st.trace ++ phase.map .start }, rfl, rfl⟩

/-- One phase run never invalidates a context entry. -/
theorem runPhase_isSome (relResp : String → Agent → String)
    (outcome : Agent → Except String String) (agents phase : List Agent)
    (o : Int) (st : PipeState) (n : String) :
    (((runPhase relResp outcome agents phase o st).contexts.lookup n).isSome) =
      ((st.contexts.lookup n).isSome) := by
  obtain ⟨st', hst', heq⟩ := runPhase_contexts relResp outcome agents phase o st
  rw [heq, foldl_await_isSome, hst']

/-- Chunks survive one phase run. -/
theorem runPhase_mono (relResp : String → Agent → String)
    (outcome : Agent → Except String String) (agents phase : List Agent)
    (o : Int) (st : PipeState) (n : String) (ch : Chunk)
    (h : ch ∈ ((st.contexts.lookup n).getD [])) :
    ch ∈ (((runPhase relResp outcome agents phase o st).contexts.lookup n).getD []) := by
  obtain ⟨st', hst', heq⟩ := runPhase_contexts relResp outcome agents phase o st
  rw [heq]
  exact foldl_await_mono relResp outcome agents o phase n ch st' (by rw [hst']; exact h)

/-- A successful phase agent's output is deposited by its phase run. -/
theorem runPhase_adds (relResp : String → Agent → String)
    (outcome : Agent → Except String String) (agents phase : List Agent)
    (o : Int) (a b : Agent) (ha : a ∈ phase) (hb : b ∈ agents) (r : String)
    (hok : outcome a = .ok r) (hne : b.name ≠ a.name)
    (hcond : (b.order > o ∧ is_relevant (relResp r b) = true) ∨
             (¬b.order > o ∧ b.name = "Coordinator"))
    (st : PipeState) (hpresent : ((st.contexts.lookup b.name).isSome) = true) :
    Chunk.output a.name r ∈
      (((runPhase relResp outcome agents phase o st).contexts.lookup b.name).getD []) := by
  obtain ⟨st', hst', heq⟩ := runPhase_contexts relResp outcome agents phase o st
  rw [heq]
  exact foldl_await_adds relResp outcome agents o phase a b ha hb r hok hne hcond st'
    (by rw [hst']; exact hpresent)

/-- Origin of a chunk deposited during one phase run. -/
theorem mem_runPhase (relResp : String → Agent → String)
    (outcome : Agent → Except String String) (agents phase : List Agent)
    (o : Int) (st : PipeState) (n : String) (ch : Chunk)
    (h : ch ∈ (((runPhase relResp outcome agents phase o st).contexts.lookup n).getD [])) :
    ch ∈ ((st.contexts.lookup n).getD []) ∨
    ∃ c ∈ phase, ∃ rr : String, outcome c = .ok rr ∧ ch = Chunk.output c.name rr ∧
      ∃ fa ∈ agents, fa.name = n ∧ fa.name ≠ c.name ∧
        ((fa.order > o ∧ is_relevant (relResp rr fa) = true) ∨
         (¬fa.order > o ∧ fa.name = "Coordinator")) := by
  obtain ⟨st', hst', heq⟩ := runPhase_contexts relResp outcome agents phase o st
  rw [heq] at h
  rcases mem_foldl_await relResp outcome agents o phase n ch st' h with h' | hx
  · exact Or.inl (by rw [← hst']; exact h')
  · exact Or.inr hx

/-- The phase loop never invalidates a context entry. -/
theorem foldl_orders_isSome (relResp : String → Agent → String)
    (outcome : Agent → Except String String) (agents : List Agent)
    (orders : List Int) (n : String) :
    ∀ st : PipeState,
      (((orders.foldl
          (fun st o => runPhase relResp outcome agents (phase_agents agents o) o st)
          st).contexts.lookup n).isSome) = ((st.contexts.lookup n).isSome) := by
  induction orders with
  | nil => intro st; rfl
  | cons o rest ih =>
    intro st
    rw [List.foldl_cons, ih, runPhase_isSome]

/-- Chunks survive the phase loop. -/
theorem foldl_orders_mono (relResp : String → Agent → String)
    (outcome : Agent → Except String String) (agents : List Agent)
    (orders : List Int) (n : String) (ch : Chunk) :
    ∀ st : PipeState, ch ∈ ((st.contexts.lookup n).getD []) →
      ch ∈ (((orders.foldl
          (fun st o => runPhase relResp outcome agents (phase_agents agents o) o st)
          st).contexts.lookup n).getD []) := by
  induction orders with
  | nil => intro st h; exact h
  | cons o rest ih =>
    intro st h
    rw [List.foldl_cons]
    exact ih _ (runPhase_mono relResp outcome agents _ o st n ch h)

/-- A successful agent's output is deposited by the phase loop whenever the
loop visits its phase and the branch conditions hold for `b`. -/
theorem foldl_orders_adds (relResp : String → Agent → String)
    (outcome : Agent → Except String String) (agents : List Agent)
    (a b : Agent) (haag : a ∈ agents) (hb : b ∈ agents) (r : String)
    (hok : outcome a = .ok r) (hne : b.name ≠ a.name)
    (hcond : (b.order > a.order ∧ is_relevant (relResp r b) = true) ∨
             (¬b.order > a.order ∧ b.name = "Coordinator")) :
    ∀ orders : List Int, a.order ∈ orders →
    ∀ st : PipeState, ((st.contexts.lookup b.name).isSome) = true →
      Chunk.output a.name r ∈
        (((orders.foldl
            (fun st o => runPhase relResp outcome agents (phase_agents agents o) o st)
            st).contexts.lookup b.name).getD []) := by
  intro orders
  induction orders with
  | nil => intro h; cases h
  | cons o rest ih =>
    intro hmem st hpresent
    rw [List.foldl_cons]
    by_cases ho : a.order = o
    · subst ho
      refine foldl_orders_mono relResp outcome agents rest b.name _ _ ?_
      exact runPhase_adds relResp outcome agents (phase_agents agents a.order) a.order
        a b ((mem_phase_agents agents a.order a).mpr ⟨haag, rfl⟩) hb r hok hne hcond st hpresent
    · rcases List.mem_cons.mp hmem with h | h
      · exact absurd h ho
      · exact ih h _ (by rw [runPhase_isSome]; exact hpresent)

/-- Origin of a chunk deposited by the phase loop: the completing agent `c`
was awaited in the phase of its own order. -/
theorem mem_foldl_orders (relResp : String → Agent → String)
    (outcome : Agent → Except String String) (agents : List Agent)
    (orders : List Int) (n : String) (ch : Chunk) :
    ∀ st : PipeState,
      ch ∈ (((orders.foldl
          (fun st o => runPhase relResp outcome agents (phase_agents agents o) o st)
          st).contexts.lookup n).getD []) →
      ch ∈ ((st.contexts.lookup n).getD []) ∨
      ∃ c ∈ agents, ∃ rr : String, outcome c = .ok rr ∧ ch = Chunk.output c.name rr ∧
        ∃ fa ∈ agents, fa.name = n ∧ fa.name ≠ c.name ∧
          ((fa.order > c.order ∧ is_relevant (relResp rr fa) = true) ∨
           (¬fa.order > c.order ∧ fa.name = "Coordinator")) := by
  induction orders with
  | nil => intro st h; exact Or.inl h
  | cons o rest ih =>
    intro st h
    rw [List.foldl_cons] at h
    rcases ih _ h with h' | hx
    · rcases mem_runPhase relResp outcome agents (phase_agents agents o) o st n ch h' with
        h'' | ⟨c, hc, rr, hrr, hch, hfa⟩
      · exact Or.inl h''
      · rcases (mem_phase_agents agents o c).mp hc with ⟨hcag, hco⟩
        subst hco
        exact Or.inr ⟨c, hcag, rr, hrr, hch, hfa⟩
    · exact Or.inr hx

/-- Initial context lookup: one entry per planned agent name, holding the
initial chunk. -/
theorem lookup_init_state (agents : List Agent) (task research n : String) :
    ((init_state task research agents).contexts.lookup n) =
      if n ∈ agents.map (fun a => a.name) then some [Chunk.init task research] else none := by
  suffices hgen : ∀ ags : List Agent,
      ((ags.map (fun a => (a.name, [Chunk.init task research]))).lookup n) =
        if n ∈ ags.map (fun a => a.name) then some [Chunk.init task research] else none by
    simpa [init_state] using hgen agents
  intro ags
  induction ags with
  | nil => simp [List.lookup]
  | cons a rest ih =>
    by_cases h : n = a.name
    · have hb : (n == a.name) = true := by simp [h]
      simp [List.lookup, hb, h]
    · have hb : (n == a.name) = false := beq_eq_false_iff_ne.mpr h
      simp [List.lookup, hb, h, ih]

/-- Distinct names identify agents. -/
theorem name_inj_of_nodup (agents : List Agent)
    (h : (agents.map (fun a => a.name)).Nodup) :
    ∀ x ∈ agents, ∀ y ∈ agents, x.name = y.name → x = y := by
  induction agents with
  | nil => simp
  | cons a rest ih =>
    simp only [List.map_cons, List.nodup_cons] at h
    obtain ⟨hnotin, hnd⟩ := h
    intro x hx y hy hxy
    rcases List.mem_cons.mp hx with hxa | hx'
    · rcases List.mem_cons.mp hy with hya | hy'
      · rw [hxa, hya]
      · exfalso
        apply hnotin
        rw [hxa] at hxy
        rw [hxy]
        exact List.mem_map.mpr ⟨y, hy', rfl⟩
    · rcases List.mem_cons.mp hy with hya | hy'
      · exfalso
        apply hnotin
        rw [hya] at hxy
        rw [← hxy]
        exact List.mem_map.mpr ⟨x, hx', rfl⟩
      · exact ih hnd x hx' y hy' hxy

/-- Origin of every chunk in a final context: the initial chunk, or a
completed output deposited under the source's branch conditions. -/
theorem mem_context_run_phases (relResp : String → Agent → String)
    (outcome : Agent → Except String String) (task research : String)
    (agents : List Agent) (n : String) (ch : Chunk)
    (h : ch ∈ context_of (run_phases relResp outcome task research agents) n) :
    ch = Chunk.init task research ∨
    ∃ c ∈ agents, ∃ rr : String, outcome c = .ok rr ∧ ch = Chunk.output c.name rr ∧
      ∃ fa ∈ agents, fa.name = n ∧ fa.name ≠ c.name ∧
        ((fa.order > c.order ∧ is_relevant (relResp rr fa) = true) ∨
         (¬fa.order > c.order ∧ fa.name = "Coordinator")) := by
  unfold context_of run_phases at h
  rcases mem_foldl_orders relResp outcome agents (sorted_orders agents) n ch _ h with h' | hx
  · left
    rw [lookup_init_state] at h'
    by_cases hn : n ∈ agents.map (fun a => a.name)
    · rw [if_pos hn] at h'
      simpa using h'
    · rw [if_neg hn] at h'
      simp at h'
  · exact Or.inr hx

/-- A successful agent's output reaches `b`'s final context whenever the
source's branch conditions hold for `b` at the completing agent's phase. -/
theorem run_phases_adds (relResp : String → Agent → String)
    (outcome : Agent → Except String String) (task research : String)
    (agents : List Agent) (a b : Agent) (ha : a ∈ agents) (hb : b ∈ agents)
    (r : String) (hok : outcome a = .ok r) (hne : b.name ≠ a.name)
    (hcond : (b.order > a.order ∧ is_relevant (relResp r b) = true) ∨
             (¬b.order > a.order ∧ b.name = "Coordinator")) :
    Chunk.output a.name r ∈
      context_of (run_phases relResp outcome task research agents) b.name := by
  unfold context_of run_phases
  refine foldl_orders_adds relResp outcome agents a b ha hb r hok hne hcond
    (sorted_orders agents) ((mem_sorted_orders agents a.order).mpr ⟨a, ha, rfl⟩)
    (init_state task research agents) ?_
  rw [lookup_init_state,
    if_pos (List.mem_map.mpr ⟨b, hb, rfl⟩)]
  rfl

/-- Claim C2: after an orchestrator run over a team with distinct names,
the context of a later-phase non-Coordinator agent `b` contains the output
of a successfully completed agent `a` exactly when the Relevance Filter
accepted (its model reply contains "YES" case-insensitively) for that
(output, agent) pair; and the phase-0 Coordinator's context contains every
other successfully completed agent's output unconditionally — the filter is
never consulted for it (given the spec's data-model invariant of
non-negative phase numbers). -/
theorem relevance_propagation (relResp : String → Agent → String)
    (outcome : Agent → Except String String) (task research : String)
    (agents : List Agent) (hnodup : (agents.map (fun a => a.name)).Nodup)
    (a b : Agent) (ha : a ∈ agents) (hb : b ∈ agents) (r : String)
    (hok : outcome a = .ok r) :
    (b.name ≠ "Coordinator" → b.order > a.order →
      (Chunk.output a.name r ∈
          context_of (run_phases relResp outcome task research agents) b.name ↔
        is_relevant (relResp r b) = true)) ∧
    (b.name = "Coordinator" → b.order = 0 → (∀ c ∈ agents, 0 ≤ c.order) →
      a.name ≠ "Coordinator" →
      Chunk.output a.name r ∈
        context_of (run_phases relResp outcome task research agents) b.name) := by
  constructor
  · intro hbnc hgt
    constructor
    · intro hmem
      rcases mem_context_run_phases relResp outcome task research agents b.name _ hmem with
        hinit | ⟨c, hc, rr, hrrok, hcheq, fa, hfa, hfname, hfne, hcond⟩
      · simp at hinit
      · injection hcheq with hname hr
        have hca : c = a :=
          name_inj_of_nodup agents hnodup c hc a ha hname.symm
        have hfb : fa = b :=
          name_inj_of_nodup agents hnodup fa hfa b hb hfname
        subst hca
        subst hfb
        rcases hcond with ⟨_, hrel⟩ | ⟨_, hcoord⟩
        · rw [hr]
          exact hrel
        · exact absurd hcoord hbnc
    · intro hrel
      have hneq : b.name ≠ a.name := by
        intro h
        have hba : b = a := name_inj_of_nodup agents hnodup b hb a ha h
        rw [hba] at hgt
        exact lt_irrefl _ hgt
      exact run_phases_adds relResp outcome task research agents a b ha hb r hok hneq
        (Or.inl ⟨hgt, hrel⟩)
  · intro hbc hbord hnonneg hanc
    have hnn := hnonneg a ha
    have hngt : ¬b.order > a.order := by omega
    have hneq : b.name ≠ a.name := fun h => hanc (h.symm.trans hbc)
    exact run_phases_adds relResp outcome task research agents a b ha hb r hok hneq
      (Or.inr ⟨hngt, hbc⟩)

/-- Witness for C2: in the three-agent run (Coordinator and Alpha in phase 0,
Beta in phase 1, every await succeeding, the relevance model always
answering "YES"), Alpha's output is propagated both to the later-phase agent
Beta and to the Coordinator. -/
theorem relevance_propagation_witness :
    Chunk.output "Alpha" "out" ∈
      context_of (run_phases (fun _ _ => "YES") (fun _ => .ok "out") "t" ""
        [⟨"Coordinator", "", "", [], 0⟩, ⟨"Alpha", "", "", [], 0⟩,
         ⟨"Beta", "", "", [], 1⟩]) "Beta" ∧
    Chunk.output "Alpha" "out" ∈
      context_of (run_phases (fun _ _ => "YES") (fun _ => .ok "out") "t" ""
        [⟨"Coordinator", "", "", [], 0⟩, ⟨"Alpha", "", "", [], 0⟩,
         ⟨"Beta", "", "", [], 1⟩]) "Coordinator" :=
  ⟨((relevance_propagation (fun _ _ => "YES") (fun _ => .ok "out") "t" ""
      [⟨"Coordinator", "", "", [], 0⟩, ⟨"Alpha", "", "", [], 0⟩,
       ⟨"Beta", "", "", [], 1⟩] (by decide)
      ⟨"Alpha", "", "", [], 0⟩ ⟨"Beta", "", "", [], 1⟩
      (by decide) (by decide) "out" rfl).1 (by decide) (by decide)).mpr (by decide),
   (relevance_propagation (fun _ _ => "YES") (fun _ => .ok "out") "t" ""
      [⟨"Coordinator", "", "", [], 0⟩, ⟨"Alpha", "", "", [], 0⟩,
       ⟨"Beta", "", "", [], 1⟩] (by decide)
      ⟨"Alpha", "", "", [], 0⟩ ⟨"Coordinator", "", "", [], 0⟩
      (by decide) (by decide) "out" rfl).2 rfl rfl (by decide) (by decide)⟩
